import Mathlib

/-
Verification of the sales ETL pipeline (src/etl/transform_sales.py) against
its natural-language specification.

The embedding models a pandas DataFrame as a list of column labels plus a
list of rows, where every cell holds a scalar value.  Numeric cells are
decimals `m / 10 ^ e` (an exact model of the finite decimal strings that
int64/float64 scalars print as and that `pd.to_numeric` parses); `vNull`
models NaN/NaT/None uniformly.  Dates are triples of calendar numbers.

Modelling notes, stated once here:
* `pd.to_datetime(..., errors = coerce)` is modelled on ISO "YYYY-MM-DD"
  strings only (the only format the specification's scenarios use);
  anything else coerces to null, as unparseable input does in the code.
* `pd.to_numeric` is modelled for plain decimal literals with optional
  sign and fraction; scientific notation and infinities are not exercised
  by any claim and are not modelled.
* floating-point accumulation is modelled by exact rational arithmetic and
  `Series.round(2)` by round-half-to-even at two decimal places.
* pandas raises on most operations over duplicate column labels; tables
  are therefore treated as record tables, and the general theorems carry a
  `Nodup` hypothesis on the column list where the code would have raised.
-/

namespace SalesETL

/-- Scalar cell value of a data frame.  `vNum m e` is the decimal
`m / 10 ^ e`; `vNull` stands for NaN / NaT / missing. -/
inductive Value where
  | vNull : Value
  | vStr : String → Value
  | vNum : Int → Nat → Value
  | vDate : Nat → Nat → Nat → Value
deriving DecidableEq, Repr

/-- A data frame: column labels and rows of cells. -/
structure Table where
  cols : List String
  rows : List (List Value)
deriving DecidableEq, Repr

/-- Index of the first column bearing a label (pandas label lookup). -/
def idxOf? (c : String) : List String → Option Nat
  | [] => none
  | c' :: cs => if c' = c then some 0 else (idxOf? c cs).map (· + 1)

/-- Cell of a row under a column label; null when the label is absent. -/
def getCell (cols : List String) (r : List Value) (c : String) : Value :=
  match idxOf? c cols with
  | some i => (r[i]?).getD Value.vNull
  | none => Value.vNull

/-- Character of a decimal digit. -/
def digitChar (d : Nat) : Char := Char.ofNat (48 + d % 10)

/-- Decimal digits of a natural number, least significant first; the fuel
argument keeps the recursion structural (any fuel above the number
suffices). -/
def digitsAux : Nat → Nat → List Char
  | 0, _ => []
  | f + 1, n =>
    if n < 10 then [digitChar n]
    else digitChar (n % 10) :: digitsAux f (n / 10)

/-- Decimal digits of a natural number, most significant first. -/
def natDigits (n : Nat) : List Char := (digitsAux (n + 1) n).reverse

/-- Numeric value of a list of decimal digits. -/
def digitsToNat (l : List Char) : Nat :=
  l.foldl (fun a c => a * 10 + (c.toNat - 48)) 0

/-- Whitespace as stripped by numeric parsing. -/
def isSpaceChar (c : Char) : Bool :=
  c == ' ' || c == '\t' || c == '\n' || c == '\r'

/-- Strip leading and trailing whitespace from a character list. -/
def trimChars (l : List Char) : List Char :=
  ((l.dropWhile isSpaceChar).reverse.dropWhile isSpaceChar).reverse

/-- Consume an optional leading sign. -/
def parseSign (l : List Char) : Int × List Char :=
  match l with
  | [] => (1, [])
  | c :: r => if c = '-' then (-1, r) else if c = '+' then (1, r) else (1, c :: r)

/-- Parse the unsigned part of a decimal literal: digit value and number
of fractional digits. -/
def parseNumCore (t1 : List Char) : Option (Nat × Nat) :=
  let ip := t1.takeWhile Char.isDigit
  let rest := t1.dropWhile Char.isDigit
  match rest with
  | [] => if ip.isEmpty then none else some (digitsToNat ip, 0)
  | '.' :: fr =>
    if fr.all Char.isDigit && !(ip.isEmpty && fr.isEmpty) then
      some (digitsToNat (ip ++ fr), fr.length)
    else none
  | _ => none

/-- Parse a plain decimal literal into mantissa and fractional length;
models the scalar conversion performed by `pd.to_numeric(errors = coerce)`
on the inputs the pipeline meets (no exponent notation). -/
def parseNumChars (l : List Char) : Option (Int × Nat) :=
  (parseNumCore (parseSign (trimChars l)).2).map
    fun p => ((parseSign (trimChars l)).1 * (p.1 : Int), p.2)

/-- Left-pad a digit string with zeros up to a given length. -/
def padZeros (l : List Char) (k : Nat) : List Char :=
  List.replicate (k - l.length) '0' ++ l

/-- Decimal string of `m / 10 ^ e`; models `str()` of the int/float scalar
(`astype(str)` in the code), which prints the exact shortest decimal. -/
def numToChars (m : Int) (e : Nat) : List Char :=
  let ds := padZeros (natDigits m.natAbs) (e + 1)
  let core :=
    if e = 0 then ds
    else ds.take (ds.length - e) ++ '.' :: ds.drop (ds.length - e)
  if m < 0 then '-' :: core else core

/-- Zero-padded four-digit year. -/
def pad4 (n : Nat) : List Char := padZeros (natDigits n) 4

/-- Zero-padded two-digit month or day. -/
def pad2 (n : Nat) : List Char := padZeros (natDigits n) 2

/-- String form of a cell, as produced by `astype(str)`: NaN prints as
"nan", numbers as their decimal literal. -/
def valueToChars : Value → List Char
  | Value.vNull => ['n', 'a', 'n']
  | Value.vStr s => s.toList
  | Value.vNum m e => numToChars m e
  | Value.vDate y mo d => pad4 y ++ '-' :: pad2 mo ++ '-' :: pad2 d

/-- Remove every currency symbol and thousands separator, as
`str.replace` with pattern `[$,]` does. -/
def stripCurrency (l : List Char) : List Char :=
  l.filter (fun c => !(c == '$' || c == ','))

/-- Coercion of the revenue column:
`pd.to_numeric(col.astype(str).str.replace(pattern, ''), errors = coerce)`. -/
def revenueCoerce (v : Value) : Value :=
  match parseNumChars (stripCurrency (valueToChars v)) with
  | some (m, e) => Value.vNum m e
  | none => Value.vNull

/-- Coercion of the quantity column: `pd.to_numeric(col, errors = coerce)`
(no string conversion: numeric scalars pass through unchanged). -/
def quantityCoerce (v : Value) : Value :=
  match v with
  | Value.vNum m e => Value.vNum m e
  | Value.vStr s =>
    match parseNumChars s.toList with
    | some (m, e) => Value.vNum m e
    | none => Value.vNull
  | _ => Value.vNull

/-- Parse an ISO "YYYY-MM-DD" date. -/
def parseDateChars : List Char → Option (Nat × Nat × Nat)
  | [y1, y2, y3, y4, '-', m1, m2, '-', d1, d2] =>
    if [y1, y2, y3, y4, m1, m2, d1, d2].all Char.isDigit then
      let y := digitsToNat [y1, y2, y3, y4]
      let mo := digitsToNat [m1, m2]
      let d := digitsToNat [d1, d2]
      if 1 ≤ mo && mo ≤ 12 && 1 ≤ d && d ≤ 31 then some (y, mo, d) else none
    else none
  | _ => none

/-- Coercion of the date column:
`pd.to_datetime(col, errors = coerce)`, modelled on ISO dates. -/
def dateCoerce (v : Value) : Value :=
  match v with
  | Value.vStr s =>
    match parseDateChars (trimChars s.toList) with
    | some (y, mo, d) => Value.vDate y mo d
    | none => Value.vNull
  | Value.vDate y mo d => Value.vDate y mo d
  | _ => Value.vNull

/-- ASCII lower-casing of one character (claims exercise only ASCII
labels). -/
def charLower (c : Char) : Char :=
  if c.toNat ≤ 90 && 65 ≤ c.toNat then Char.ofNat (c.toNat + 32) else c

/-- Lower-case and strip a column label:
`df.columns.str.lower().str.strip()`. -/
def normName (s : String) : String :=
  String.mk (trimChars (s.toList.map charLower))

/-- The fixed synonym table of the source, in its textual order. -/
def columnMapping : List (String × List String) :=
  [("store_id", ["store_id", "store", "location_id"]),
   ("date", ["date", "sale_date", "transaction_date"]),
   ("revenue", ["revenue", "sales", "amount", "total"]),
   ("product", ["product", "product_name", "item"]),
   ("quantity", ["quantity", "qty", "units"])]

/-- `df.rename(columns = ...)`: every column bearing the old label is
renamed. -/
def renameAll (old new : String) (cols : List String) : List String :=
  cols.map fun c => if c = old then new else c

/-- One pass of the mapping loop: find the first column whose label lies
in the synonym list, rename it (and its duplicates) to the canonical name,
then stop scanning. -/
def applyMapping (cols : List String) (entry : String × List String) :
    List String :=
  match cols.find? (fun c => entry.2.contains c) with
  | some c => renameAll c entry.1 cols
  | none => cols

/-- Column normalization: lower/strip every label, then run the mapping
loop over the five canonical entries in order. -/
def normalizeCols (cols : List String) : List String :=
  columnMapping.foldl applyMapping (cols.map normName)

/-- Every synonym recognized by the mapping. -/
def allSyns : List String := (columnMapping.map Prod.snd).flatten

/-- Entry e' cannot interfere with entry e during the mapping fold: no
synonym of e lies in the synonym set of e', and the canonical name of e'
is not a synonym of e. -/
def noInterfere (e e' : String × List String) : Prop :=
  (∀ s ∈ e.2, s ∉ e'.2) ∧ e'.1 ∉ e.2

instance (e e' : String × List String) : Decidable (noInterfere e e') := by
  unfold noInterfere
  infer_instance

/-- Per-cell coercion, dispatching on the (canonical) column label; a
column absent from the table is simply never coerced, which models the
`if col in df.columns` guards. -/
def coerceCell (c : String) (v : Value) : Value :=
  if c = "date" then dateCoerce v
  else if c = "revenue" then revenueCoerce v
  else if c = "quantity" then quantityCoerce v
  else v

/-- Coerce one row against the column list. -/
def coerceRow (cols : List String) (r : List Value) : List Value :=
  (cols.zip r).map fun p => coerceCell p.1 p.2

/-- Coerce the date / revenue / quantity columns of a table. -/
def coerceTable (t : Table) : Table :=
  { cols := t.cols, rows := t.rows.map (coerceRow t.cols) }

/-- The dropna subset of the source. -/
def requiredCols : List String := ["date", "revenue", "store_id"]

/-- A row is kept when every subset field is non-null. -/
def rowComplete (cols : List String) (subset : List String)
    (r : List Value) : Bool :=
  subset.all fun c => decide (getCell cols r c ≠ Value.vNull)

/-- `df.dropna(subset = ...)`: raises KeyError when a subset label is not
a column of the frame, otherwise keeps the rows whose subset fields are
all non-null. -/
def dropna (t : Table) (subset : List String) : Except String Table :=
  if subset.all (fun c => t.cols.contains c) then
    Except.ok { cols := t.cols,
                rows := t.rows.filter (rowComplete t.cols subset) }
  else Except.error "KeyError"

/-- Year of a date cell. -/
def yearVal : Value → Value
  | Value.vDate y _ _ => Value.vNum (y : Int) 0
  | _ => Value.vNull

/-- Month of a date cell. -/
def monthVal : Value → Value
  | Value.vDate _ mo _ => Value.vNum (mo : Int) 0
  | _ => Value.vNull

/-- "YYYY-MM" form of a year and month (`dt.to_period('M').astype(str)`). -/
def yearMonthStr (y mo : Nat) : String :=
  String.mk (pad4 y ++ '-' :: pad2 mo)

/-- Period string of a date cell. -/
def ymVal : Value → Value
  | Value.vDate y mo _ => Value.vStr (yearMonthStr y mo)
  | _ => Value.vNull

/-- `df[c] = f(df)`: overwrite the column when the label exists, else
append it at the right edge. -/
def setColumn (t : Table) (c : String) (f : List Value → Value) : Table :=
  match idxOf? c t.cols with
  | some i => { cols := t.cols, rows := t.rows.map fun r => r.set i (f r) }
  | none => { cols := t.cols ++ [c], rows := t.rows.map fun r => r ++ [f r] }

/-- Add the derived year / month / year_month columns. -/
def withDerived (t : Table) : Table :=
  let t1 := setColumn t "year" fun r => yearVal (getCell t.cols r "date")
  let t2 := setColumn t1 "month" fun r => monthVal (getCell t1.cols r "date")
  setColumn t2 "year_month" fun r => ymVal (getCell t2.cols r "date")

/-- Cleaning stage of `transform`: coerce, drop incomplete rows, derive
calendar columns. -/
def cleanTable (t : Table) : Except String Table :=
  match dropna (coerceTable t) requiredCols with
  | Except.ok t' => Except.ok (withDerived t')
  | Except.error e => Except.error e

/-- Rename the columns of a table to canonical form. -/
def normalizeTable (t : Table) : Table :=
  { cols := normalizeCols t.cols, rows := t.rows }

/-- Column union of several frames in order of first appearance
(`pd.concat` outer join, sort = false). -/
def unionCols (ts : List Table) : List String :=
  ts.foldl (fun acc t => acc ++ t.cols.filter (fun c => !(acc.contains c))) []

/-- `pd.concat(ts, ignore_index = true)`: union the columns, align each
row by label, missing labels become null. -/
def concatTables (ts : List Table) : Table :=
  let cs := unionCols ts
  { cols := cs,
    rows := ts.foldl
      (fun acc t => acc ++ t.rows.map fun r => cs.map (getCell t.cols r)) [] }

/-- The `transform` method: with no raw tables it logs and returns without
producing any table (`none`); otherwise it concatenates, normalizes column
names and cleans. -/
def transform (tables : List Table) : Except String (Option Table) :=
  if tables.isEmpty then Except.ok none
  else
    match cleanTable (normalizeTable (concatTables tables)) with
    | Except.ok t => Except.ok (some t)
    | Except.error e => Except.error e

/-- Grouping key of a row. -/
def keyOf (cols : List String) (r : List Value) : Value × Value :=
  (getCell cols r "store_id", getCell cols r "year_month")

/-- Rows whose grouping key is fully non-null (pandas groupby drops rows
with a null key). -/
def keyedRows (t : Table) : List (List Value) :=
  t.rows.filter fun r =>
    decide ((keyOf t.cols r).1 ≠ Value.vNull) &&
    decide ((keyOf t.cols r).2 ≠ Value.vNull)

/-- Deduplicate, keeping the first occurrence of each key.  (pandas sorts
group keys; no claim depends on row order, so first-appearance order is
used.) -/
def firstDedup : List (Value × Value) → List (Value × Value)
  | [] => []
  | k :: ks => k :: (firstDedup ks).filter fun x => decide (x ≠ k)

/-- Exact sum of two decimals. -/
def decAdd : Int × Nat → Int × Nat → Int × Nat
  | (a, ea), (b, eb) =>
    let e := max ea eb
    (a * (10 : Int) ^ (e - ea) + b * (10 : Int) ^ (e - eb), e)

/-- Group sum of the quantity column, nulls contributing nothing
(`groupby(...).agg(quantity: sum)` with default skipna). -/
def sumQty (cols : List String) (rows : List (List Value)) : Int × Nat :=
  rows.foldl
    (fun acc r =>
      match getCell cols r "quantity" with
      | Value.vNum m e => decAdd acc (m, e)
      | _ => acc) (0, 0)

/-- Rational value of a decimal (used only to state numeric claims). -/
def decToRat (m : Int) (e : Nat) : ℚ := (m : ℚ) / (10 : ℚ) ^ e

/-- Group sum of the revenue column as an exact decimal, nulls
contributing nothing. -/
def sumRevenue (cols : List String) (rows : List (List Value)) : Int × Nat :=
  rows.foldl
    (fun acc r =>
      match getCell cols r "revenue" with
      | Value.vNum m e => decAdd acc (m, e)
      | _ => acc) (0, 0)

/-- Group count of non-null dates (`agg(date: count)`). -/
def countDates (cols : List String) (rows : List (List Value)) : Nat :=
  rows.countP fun r => decide (getCell cols r "date" ≠ Value.vNull)

/-- Round the integer quotient m / d (d positive) to the nearest integer,
ties to even (the rounding of `Series.round`). -/
def rheDiv (m d : Int) : Int :=
  let q := Int.fdiv m d
  let r := m - q * d
  if 2 * r < d then q
  else if d < 2 * r then q + 1
  else if Int.emod q 2 = 0 then q else q + 1

/-- Round a decimal to two decimal places, returning centi-units. -/
def roundCenti : Int × Nat → Int
  | (m, e) =>
    if e ≤ 2 then m * (10 : Int) ^ (2 - e)
    else rheDiv m ((10 : Int) ^ (e - 2))

/-- Column labels of the monthly summary. -/
def summaryCols : List String :=
  ["store_id", "year_month", "total_revenue", "total_quantity",
   "total_orders", "report_generated"]

/-- Rows of one group. -/
def groupRows (t : Table) (k : Value × Value) : List (List Value) :=
  t.rows.filter fun r => decide (keyOf t.cols r = k)

/-- One summary row. -/
def summaryRow (now : String) (t : Table) (k : Value × Value) : List Value :=
  let g := groupRows t k
  let q := sumQty t.cols g
  [k.1, k.2, Value.vNum (roundCenti (sumRevenue t.cols g)) 2,
   Value.vNum q.1 q.2, Value.vNum (countDates t.cols g : Int) 0,
   Value.vStr now]

/-- Columns the aggregation touches (group keys and aggregated fields);
a groupby or agg over a missing label raises KeyError. -/
def aggCols : List String :=
  ["store_id", "year_month", "revenue", "quantity", "date"]

/-- Grouping keys of a table. -/
def groupKeys (t : Table) : List (Value × Value) :=
  firstDedup ((keyedRows t).map (keyOf t.cols))

/-- The `aggregate` method: with no cleaned table it returns without
producing a summary; otherwise it groups by (store_id, year_month) and
computes the rollups, rounding revenue to two decimals and stamping every
row with the run timestamp. -/
def aggregate (now : String) (ot : Option Table) :
    Except String (Option Table) :=
  match ot with
  | none => Except.ok none
  | some t =>
    if aggCols.all (fun c => t.cols.contains c) then
      Except.ok (some { cols := summaryCols,
                        rows := (groupKeys t).map (summaryRow now t) })
    else Except.error "KeyError"

/-- transform followed by aggregate, as `run_pipeline` sequences them. -/
def pipeline (now : String) (tables : List Table) :
    Except String (Option Table) :=
  match transform tables with
  | Except.ok ot => aggregate now ot
  | Except.error e => Except.error e

/- Concrete tables used by the specification's testable properties. -/

/-- End-to-end scenario, first raw table: standard column names. -/
def rawA : Table :=
  { cols := ["store_id", "date", "revenue", "product", "quantity"],
    rows := [[Value.vStr "A", Value.vStr "2024-03-15", Value.vNum 100 0,
      Value.vStr "Widget", Value.vNum 1 0]] }

/-- End-to-end scenario, second raw table: the store/sale_date/amount/
item/qty synonym set. -/
def rawB : Table :=
  { cols := ["store", "sale_date", "amount", "item", "qty"],
    rows := [[Value.vStr "B", Value.vStr "2024-03-16", Value.vNum 200 0,
      Value.vStr "Gadget", Value.vNum 2 0]] }

/-- End-to-end scenario, third raw table: the location_id/
transaction_date/total/product_name/units synonym set, currency-formatted
revenue. -/
def rawC : Table :=
  { cols := ["location_id", "transaction_date", "total", "product_name",
      "units"],
    rows := [[Value.vStr "C", Value.vStr "2024-03-17", Value.vStr "$300.00",
      Value.vStr "Gizmo", Value.vNum 3 0]] }

/-- The summary the code produces on the end-to-end scenario: a single
row, for store A only. -/
def scenarioSummary : Table :=
  { cols := summaryCols,
    rows := [[Value.vStr "A", Value.vStr "2024-03", Value.vNum 10000 2,
      Value.vNum 1 0, Value.vNum 1 0,
      Value.vStr "2024-04-01 00:00:00"]] }

/-- Cleaned table of the aggregation-correctness property: rows
(S1, 2024-01, 100.00, 2), (S1, 2024-01, 50.005, 1), (S2, 2024-01, 10, 1). -/
def c5Table : Table :=
  { cols := ["store_id", "year_month", "revenue", "quantity", "date"],
    rows :=
      [[Value.vStr "S1", Value.vStr "2024-01", Value.vNum 10000 2,
        Value.vNum 2 0, Value.vDate 2024 1 5],
       [Value.vStr "S1", Value.vStr "2024-01", Value.vNum 50005 3,
        Value.vNum 1 0, Value.vDate 2024 1 6],
       [Value.vStr "S2", Value.vStr "2024-01", Value.vNum 10 0,
        Value.vNum 1 0, Value.vDate 2024 1 7]] }

/-- Expected aggregation of `c5Table`: 150.00 for S1 (half-even at
150.005), 10.00 for S2. -/
def c5Summary (now : String) : Table :=
  { cols := summaryCols,
    rows :=
      [[Value.vStr "S1", Value.vStr "2024-01", Value.vNum 15000 2,
        Value.vNum 3 0, Value.vNum 2 0, Value.vStr now],
       [Value.vStr "S2", Value.vStr "2024-01", Value.vNum 1000 2,
        Value.vNum 1 0, Value.vNum 1 0, Value.vStr now]] }

/-- A zero-row table carrying the canonical columns. -/
def emptyCanonical : Table :=
  { cols := ["store_id", "date", "revenue", "product", "quantity"],
    rows := [] }

/-- The cleaned form of the empty canonical table. -/
def emptyCleaned : Table :=
  { cols := ["store_id", "date", "revenue", "product", "quantity", "year",
      "month", "year_month"],
    rows := [] }

/-- The empty monthly summary. -/
def emptySummary : Table := { cols := summaryCols, rows := [] }

/-- A source table with no date column at all. -/
def noDateTable : Table :=
  { cols := ["store_id", "revenue"],
    rows := [[Value.vStr "A", Value.vNum 100 0]] }

/-- Witness table for the cleaning-stage claims: one fully valid row, one
row with a null date, one row with a null quantity. -/
def cleanWitnessTable : Table :=
  { cols := ["store_id", "date", "revenue", "quantity"],
    rows :=
      [[Value.vStr "A", Value.vStr "2024-03-15", Value.vNum 100 0,
        Value.vNull],
       [Value.vStr "B", Value.vNull, Value.vNum 5 0, Value.vNum 1 0]] }

/-- The cleaned form of `cleanWitnessTable`: the null-date row is dropped,
the null-quantity row survives. -/
def cleanWitnessCleaned : Table :=
  { cols := ["store_id", "date", "revenue", "quantity", "year", "month",
      "year_month"],
    rows := [[Value.vStr "A", Value.vDate 2024 3 15, Value.vNum 100 0,
      Value.vNull, Value.vNum 2024 0, Value.vNum 3 0,
      Value.vStr "2024-03"]] }

/- Character and digit-string lemmas. -/

lemma digitChar_isDigit (d : Nat) : (digitChar d).isDigit = true := by
  have h : d % 10 < 10 := Nat.mod_lt _ (by omega)
  unfold digitChar
  revert h
  generalize d % 10 = r
  intro h
  interval_cases r <;> decide

lemma digitChar_val (d : Nat) : (digitChar d).toNat - 48 = d % 10 := by
  have h : d % 10 < 10 := Nat.mod_lt _ (by omega)
  unfold digitChar
  revert h
  generalize d % 10 = r
  intro h
  interval_cases r <;> decide

lemma digitsToNat_reverse_cons (c : Char) (cs : List Char) :
    digitsToNat (c :: cs).reverse =
      digitsToNat cs.reverse * 10 + (c.toNat - 48) := by
  unfold digitsToNat
  rw [List.reverse_cons, List.foldl_append]
  rfl

lemma digitsAux_all_digit :
    ∀ f n, ∀ c ∈ digitsAux f n, c.isDigit = true := by
  intro f
  induction f with
  | zero => intro n c hc; simp [digitsAux] at hc
  | succ f ih =>
    intro n c hc
    unfold digitsAux at hc
    by_cases h : n < 10
    · simp only [if_pos h, List.mem_singleton] at hc
      exact hc ▸ digitChar_isDigit n
    · simp only [if_neg h, List.mem_cons] at hc
      rcases hc with rfl | hc
      · exact digitChar_isDigit (n % 10)
      · exact ih _ _ hc

lemma digitsToNat_digitsAux :
    ∀ f n, n < f → digitsToNat (digitsAux f n).reverse = n := by
  intro f
  induction f with
  | zero => intro n h; exact absurd h (Nat.not_lt_zero n)
  | succ f ih =>
    intro n h
    unfold digitsAux
    by_cases h10 : n < 10
    · rw [if_pos h10]
      have hv := digitChar_val n
      unfold digitsToNat
      simp only [List.reverse_singleton, List.foldl_cons, List.foldl_nil]
      omega
    · rw [if_neg h10]
      have hdn : n / 10 < n := Nat.div_lt_self (by omega) (by omega)
      have hd : n / 10 < f := by omega
      rw [digitsToNat_reverse_cons, ih _ hd]
      have hv := digitChar_val (n % 10)
      have := Nat.div_add_mod n 10
      omega

lemma digitsToNat_natDigits (n : Nat) : digitsToNat (natDigits n) = n :=
  digitsToNat_digitsAux (n + 1) n (Nat.lt_succ_self n)

lemma natDigits_all_digit (n : Nat) :
    ∀ c ∈ natDigits n, c.isDigit = true := by
  intro c hc
  exact digitsAux_all_digit _ _ c (List.mem_reverse.mp hc)

lemma digitsToNat_replicate_zero (j : Nat) :
    List.foldl (fun a c => a * 10 + (c.toNat - 48)) 0
      (List.replicate j '0') = 0 := by
  induction j with
  | zero => rfl
  | succ j ih => simpa [List.replicate_succ] using ih

lemma digitsToNat_padZeros (l : List Char) (k : Nat) :
    digitsToNat (padZeros l k) = digitsToNat l := by
  unfold padZeros digitsToNat
  rw [List.foldl_append, digitsToNat_replicate_zero]

lemma padZeros_all_digit {l : List Char} (k : Nat)
    (h : ∀ c ∈ l, c.isDigit = true) :
    ∀ c ∈ padZeros l k, c.isDigit = true := by
  intro c hc
  unfold padZeros at hc
  rcases List.mem_append.mp hc with hc | hc
  · rw [List.eq_of_mem_replicate hc]; decide
  · exact h c hc

lemma padZeros_length (l : List Char) (k : Nat) :
    k ≤ (padZeros l k).length := by
  unfold padZeros
  rw [List.length_append, List.length_replicate]
  omega

lemma isDigit_ne {c x : Char} (h : c.isDigit = true)
    (hx : x.isDigit = false) : c ≠ x := by
  rintro rfl
  rw [h] at hx
  cases hx

lemma isDigit_not_space {c : Char} (h : c.isDigit = true) :
    isSpaceChar c = false := by
  have h1 : c ≠ ' ' := isDigit_ne h (by decide)
  have h2 : c ≠ '\t' := isDigit_ne h (by decide)
  have h3 : c ≠ '\n' := isDigit_ne h (by decide)
  have h4 : c ≠ '\r' := isDigit_ne h (by decide)
  simp [isSpaceChar, h1, h2, h3, h4]

/- takeWhile / dropWhile / trim lemmas. -/

lemma dropWhile_eq_self_of_false {p : Char → Bool} :
    ∀ {l : List Char}, (∀ c ∈ l, p c = false) → l.dropWhile p = l := by
  intro l h
  cases l with
  | nil => rfl
  | cons c cs => simp [List.dropWhile_cons, h c (List.mem_cons_self c cs)]

lemma trimChars_eq_self {l : List Char}
    (h : ∀ c ∈ l, isSpaceChar c = false) : trimChars l = l := by
  unfold trimChars
  rw [dropWhile_eq_self_of_false h,
      dropWhile_eq_self_of_false (fun c hc => h c (List.mem_reverse.mp hc)),
      List.reverse_reverse]

lemma takeWhile_eq_self_of_true {p : Char → Bool} :
    ∀ {l : List Char}, (∀ c ∈ l, p c = true) → l.takeWhile p = l := by
  intro l
  induction l with
  | nil => intro _; rfl
  | cons c cs ih =>
    intro h
    simp [List.takeWhile_cons, h c (List.mem_cons_self c cs),
      ih fun x hx => h x (List.mem_cons_of_mem c hx)]

lemma dropWhile_eq_nil_of_true {p : Char → Bool} :
    ∀ {l : List Char}, (∀ c ∈ l, p c = true) → l.dropWhile p = [] := by
  intro l
  induction l with
  | nil => intro _; rfl
  | cons c cs ih =>
    intro h
    simp [List.dropWhile_cons, h c (List.mem_cons_self c cs),
      ih fun x hx => h x (List.mem_cons_of_mem c hx)]

lemma takeWhile_append_sep {p : Char → Bool} {x : Char} (hx : p x = false) :
    ∀ (A B : List Char), (∀ c ∈ A, p c = true) →
      (A ++ x :: B).takeWhile p = A ∧ (A ++ x :: B).dropWhile p = x :: B := by
  intro A
  induction A with
  | nil => intro B _; simp [List.takeWhile_cons, List.dropWhile_cons, hx]
  | cons a as ih =>
    intro B h
    have ha := h a (List.mem_cons_self a as)
    have hrec := ih B fun c hc => h c (List.mem_cons_of_mem a hc)
    simp [List.takeWhile_cons, List.dropWhile_cons, ha, hrec.1, hrec.2]

/- Parser / printer round trip. -/

lemma parseSign_of_digit {c : Char} (h : c.isDigit = true) (cs : List Char) :
    parseSign (c :: cs) = (1, c :: cs) := by
  have h1 : c ≠ '-' := isDigit_ne h (by decide)
  have h2 : c ≠ '+' := isDigit_ne h (by decide)
  simp [parseSign, h1, h2]

lemma parseNumCore_int {ds : List Char} (hds : ∀ c ∈ ds, c.isDigit = true)
    (hne : ds ≠ []) : parseNumCore ds = some (digitsToNat ds, 0) := by
  unfold parseNumCore
  rw [takeWhile_eq_self_of_true hds, dropWhile_eq_nil_of_true hds]
  simp [List.isEmpty_iff, hne]

lemma parseNumCore_frac {A B : List Char}
    (hA : ∀ c ∈ A, c.isDigit = true) (hB : ∀ c ∈ B, c.isDigit = true)
    (hne : A ≠ []) :
    parseNumCore (A ++ '.' :: B) = some (digitsToNat (A ++ B), B.length) := by
  unfold parseNumCore
  have hsep := takeWhile_append_sep (p := Char.isDigit) (x := '.')
    (by decide) A B hA
  rw [hsep.1, hsep.2]
  have hBall : B.all Char.isDigit = true := List.all_eq_true.mpr hB
  simp [hBall, List.isEmpty_iff, hne]

lemma numToChars_shape (m : Int) (e : Nat) :
    ∀ c ∈ numToChars m e, c.isDigit = true ∨ c = '-' ∨ c = '.' := by
  intro c hc
  unfold numToChars at hc
  set ds := padZeros (natDigits m.natAbs) (e + 1) with hds
  have hdig : ∀ c ∈ ds, c.isDigit = true :=
    padZeros_all_digit _ (natDigits_all_digit _)
  have hcore : ∀ x ∈ (if e = 0 then ds
      else ds.take (ds.length - e) ++ '.' :: ds.drop (ds.length - e)),
      x.isDigit = true ∨ x = '-' ∨ x = '.' := by
    intro x hx
    by_cases he : e = 0
    · rw [if_pos he] at hx; exact Or.inl (hdig x hx)
    · rw [if_neg he] at hx
      rcases List.mem_append.mp hx with hx | hx
      · exact Or.inl (hdig x (List.take_subset _ _ hx))
      · rcases List.mem_cons.mp hx with rfl | hx
        · exact Or.inr (Or.inr rfl)
        · exact Or.inl (hdig x (List.drop_subset _ _ hx))
  by_cases hm : m < 0
  · rw [if_pos hm] at hc
    rcases List.mem_cons.mp hc with rfl | hc
    · exact Or.inr (Or.inl rfl)
    · exact hcore c hc
  · rw [if_neg hm] at hc
    exact hcore c hc

lemma numToChars_no_space (m : Int) (e : Nat) :
    ∀ c ∈ numToChars m e, isSpaceChar c = false := by
  intro c hc
  rcases numToChars_shape m e c hc with h | rfl | rfl
  · exact isDigit_not_space h
  · decide
  · decide

lemma parseNumCore_core (m : Int) (e : Nat) :
    parseNumCore (if e = 0 then padZeros (natDigits m.natAbs) (e + 1)
        else (padZeros (natDigits m.natAbs) (e + 1)).take
            ((padZeros (natDigits m.natAbs) (e + 1)).length - e) ++
          '.' :: (padZeros (natDigits m.natAbs) (e + 1)).drop
            ((padZeros (natDigits m.natAbs) (e + 1)).length - e)) =
      some (m.natAbs, e) := by
  set ds := padZeros (natDigits m.natAbs) (e + 1) with hds
  have hdig : ∀ c ∈ ds, c.isDigit = true :=
    padZeros_all_digit _ (natDigits_all_digit _)
  have hlen : e + 1 ≤ ds.length := padZeros_length _ _
  have hval : digitsToNat ds = m.natAbs := by
    rw [hds]; unfold padZeros digitsToNat
    rw [List.foldl_append, digitsToNat_replicate_zero]
    exact digitsToNat_natDigits _
  by_cases he : e = 0
  · rw [if_pos he]
    rw [parseNumCore_int hdig (by
      intro h
      rw [h] at hlen
      simp at hlen)]
    rw [hval, he]
  · rw [if_neg he]
    have htake : ∀ c ∈ ds.take (ds.length - e), c.isDigit = true :=
      fun c hc => hdig c (List.take_subset _ _ hc)
    have hdrop : ∀ c ∈ ds.drop (ds.length - e), c.isDigit = true :=
      fun c hc => hdig c (List.drop_subset _ _ hc)
    have htne : ds.take (ds.length - e) ≠ [] := by
      intro h
      have := congrArg List.length h
      rw [List.length_take] at this
      simp only [List.length_nil] at this
      omega
    rw [parseNumCore_frac htake hdrop htne, List.take_append_drop, hval,
      List.length_drop]
    congr 2
    omega

lemma parseNum_print (m : Int) (e : Nat) :
    parseNumChars (numToChars m e) = some (m, e) := by
  unfold parseNumChars
  rw [trimChars_eq_self (numToChars_no_space m e)]
  unfold numToChars
  set ds := padZeros (natDigits m.natAbs) (e + 1) with hds
  have hdig : ∀ c ∈ ds, c.isDigit = true :=
    padZeros_all_digit _ (natDigits_all_digit _)
  have hlen : e + 1 ≤ ds.length := padZeros_length _ _
  have hdsne : ds ≠ [] := by
    intro h
    rw [h] at hlen
    simp at hlen
  have hcorene : (if e = 0 then ds
      else ds.take (ds.length - e) ++ '.' :: ds.drop (ds.length - e)) ≠ [] ∧
      ∀ c cs, (if e = 0 then ds
        else ds.take (ds.length - e) ++ '.' :: ds.drop (ds.length - e)) =
          c :: cs → c.isDigit = true := by
    constructor
    · by_cases he : e = 0
      · rw [if_pos he]; exact hdsne
      · rw [if_neg he]
        intro h
        rcases List.append_eq_nil.mp h with ⟨_, h2⟩
        cases h2
    · intro c cs hc
      by_cases he : e = 0
      · rw [if_pos he] at hc
        exact hdig c (hc ▸ List.mem_cons_self c cs)
      · rw [if_neg he] at hc
        have htne : ds.take (ds.length - e) ≠ [] := by
          intro h
          have := congrArg List.length h
          rw [List.length_take] at this
          simp only [List.length_nil] at this
          omega
        obtain ⟨d, dsx, hd⟩ := List.exists_cons_of_ne_nil htne
        rw [hd] at hc
        simp only [List.cons_append, List.cons.injEq] at hc
        have : c ∈ ds.take (ds.length - e) := by
          rw [hd, ← hc.1]
          exact List.mem_cons_self _ _
        exact hdig c (List.take_subset _ _ this)
  by_cases hm : m < 0
  · rw [if_pos hm]
    have hsign : parseSign ('-' ::
        (if e = 0 then ds
          else ds.take (ds.length - e) ++ '.' :: ds.drop (ds.length - e))) =
        (-1, (if e = 0 then ds
          else ds.take (ds.length - e) ++ '.' :: ds.drop (ds.length - e))) := by
      simp [parseSign]
    rw [hsign]
    simp only [parseNumCore_core m e, Option.map_some']
    have : -(1 : Int) * (m.natAbs : Int) = m := by omega
    rw [this]
  · rw [if_neg hm]
    obtain ⟨c, cs, hccs⟩ := List.exists_cons_of_ne_nil hcorene.1
    rw [hccs, parseSign_of_digit (hcorene.2 c cs hccs) cs, ← hccs]
    simp only [parseNumCore_core m e, Option.map_some']
    have : (1 : Int) * (m.natAbs : Int) = m := by omega
    rw [this]

lemma stripCurrency_numToChars (m : Int) (e : Nat) :
    stripCurrency (numToChars m e) = numToChars m e := by
  unfold stripCurrency
  rw [List.filter_eq_self]
  intro c hc
  rcases numToChars_shape m e c hc with h | rfl | rfl
  · have h1 : c ≠ '$' := isDigit_ne h (by decide)
    have h2 : c ≠ ',' := isDigit_ne h (by decide)
    simp [h1, h2]
  · decide
  · decide

/-- Already-numeric revenue input round-trips unchanged through
`astype(str)` plus stripping plus `to_numeric`. -/
lemma revenueCoerce_num (m : Int) (e : Nat) :
    revenueCoerce (Value.vNum m e) = Value.vNum m e := by
  unfold revenueCoerce valueToChars
  rw [stripCurrency_numToChars, parseNum_print]

/- Normalization lemmas. -/

lemma renameAll_getElem? (old new : String) (l : List String) (k : Nat) :
    (renameAll old new l)[k]? =
      (l[k]?).map fun c => if c = old then new else c := by
  unfold renameAll
  exact List.getElem?_map _ _ _

lemma renameAll_length (old new : String) (l : List String) :
    (renameAll old new l).length = l.length := List.length_map _ _

lemma applyMapping_length (cols : List String) (e : String × List String) :
    (applyMapping cols e).length = cols.length := by
  unfold applyMapping
  cases h : cols.find? (fun c => e.2.contains c) with
  | none => rfl
  | some a => exact renameAll_length _ _ _

lemma foldl_applyMapping_length (es : List (String × List String)) :
    ∀ cols : List String, (es.foldl applyMapping cols).length = cols.length := by
  induction es with
  | nil => intro cols; rfl
  | cons e es ih =>
    intro cols
    rw [List.foldl_cons, ih, applyMapping_length]

lemma normalizeCols_length (cols : List String) :
    (normalizeCols cols).length = cols.length := by
  unfold normalizeCols
  rw [foldl_applyMapping_length, List.length_map]

lemma applyMapping_getElem?_of_not_mem {cols : List String}
    {e : String × List String} {k : Nat} {v : String}
    (hk : cols[k]? = some v) (hv : v ∉ e.2) :
    (applyMapping cols e)[k]? = some v := by
  unfold applyMapping
  cases h : cols.find? (fun c => e.2.contains c) with
  | none => exact hk
  | some a =>
    have ha : a ∈ e.2 := by
      have := List.find?_some h
      simpa using this
    have hva : v ≠ a := by rintro rfl; exact hv ha
    rw [renameAll_getElem?, hk]
    simp [hva]

lemma applyMapping_getElem?_or {cols : List String}
    {e : String × List String} {k : Nat} {v : String}
    (hk : cols[k]? = some v) :
    (applyMapping cols e)[k]? = some v ∨
      (applyMapping cols e)[k]? = some e.1 := by
  unfold applyMapping
  cases h : cols.find? (fun c => e.2.contains c) with
  | none => exact Or.inl hk
  | some a =>
    rw [renameAll_getElem?, hk]
    by_cases hva : v = a
    · right; simp [hva]
    · left; simp [hva]

lemma fold_preserve_of_not_mem :
    ∀ (es : List (String × List String)) (cols : List String) (k : Nat)
      (v : String), cols[k]? = some v → (∀ e' ∈ es, v ∉ e'.2) →
      (es.foldl applyMapping cols)[k]? = some v := by
  intro es
  induction es with
  | nil => intro cols k v hk _; exact hk
  | cons e es ih =>
    intro cols k v hk h
    rw [List.foldl_cons]
    exact ih _ _ _
      (applyMapping_getElem?_of_not_mem hk (h e (List.mem_cons_self e es)))
      (fun e' he' => h e' (List.mem_cons_of_mem e he'))

lemma fold_getElem?_or :
    ∀ (es : List (String × List String)) (cols : List String) (k : Nat)
      (v : String), cols[k]? = some v →
      (es.foldl applyMapping cols)[k]? = some v ∨
      ∃ e, e ∈ es ∧ (es.foldl applyMapping cols)[k]? = some e.1 := by
  intro es
  induction es with
  | nil => intro cols k v hk; exact Or.inl hk
  | cons e es ih =>
    intro cols k v hk
    rw [List.foldl_cons]
    rcases applyMapping_getElem?_or (e := e) hk with h1 | h1
    · rcases ih _ _ _ h1 with h2 | ⟨e', he', h2⟩
      · exact Or.inl h2
      · exact Or.inr ⟨e', List.mem_cons_of_mem e he', h2⟩
    · rcases ih _ _ _ h1 with h2 | ⟨e', he', h2⟩
      · exact Or.inr ⟨e, List.mem_cons_self e es, h2⟩
      · exact Or.inr ⟨e', List.mem_cons_of_mem e he', h2⟩

lemma fold_match_pointwise (e : String × List String)
    (es : List (String × List String)) (cols : List String) (k : Nat)
    (v : String) (hk : cols[k]? = some v)
    (hes : ∀ e' ∈ es, noInterfere e e') :
    ∃ w, (es.foldl applyMapping cols)[k]? = some w ∧
      (v ∈ e.2 → w = v) ∧ (v ∉ e.2 → w ∉ e.2) := by
  by_cases hv : v ∈ e.2
  · refine ⟨v, ?_, fun _ => rfl, fun h => absurd hv h⟩
    exact fold_preserve_of_not_mem es cols k v hk
      fun e' he' => (hes e' he').1 v hv
  · rcases fold_getElem?_or es cols k v hk with h1 | ⟨e', he', h1⟩
    · exact ⟨v, h1, fun h => rfl, fun _ => hv⟩
    · exact ⟨e'.1, h1, fun h => absurd h hv, fun _ => (hes e' he').2⟩

lemma find?_congr_pointwise (p : String → Bool) :
    ∀ (l₁ l₂ : List String), l₁.length = l₂.length →
      (∀ (k : Nat) (v : String), l₁[k]? = some v → ∃ w, l₂[k]? = some w ∧
        (p v = true → w = v) ∧ (p v = false → p w = false)) →
      l₂.find? p = l₁.find? p := by
  intro l₁
  induction l₁ with
  | nil =>
    intro l₂ hlen _
    cases l₂ with
    | nil => rfl
    | cons b l₂ => simp at hlen
  | cons a l₁ ih =>
    intro l₂ hlen hpt
    cases l₂ with
    | nil => simp at hlen
    | cons b l₂ =>
      obtain ⟨w, hw, h1, h2⟩ := hpt 0 a (List.getElem?_cons_zero)
      rw [List.getElem?_cons_zero] at hw
      have hbw : b = w := by injection hw
      cases hp : p a with
      | true =>
        rw [List.find?_cons, List.find?_cons, hp, hbw, h1 hp, hp]
      | false =>
        have hpb : p b = false := hbw ▸ h2 hp
        rw [List.find?_cons, List.find?_cons, hp, hpb]
        refine ih l₂ (by simpa using hlen) ?_
        intro k v hk
        obtain ⟨w', hw', h1', h2'⟩ := hpt (k + 1) v (by simpa using hk)
        exact ⟨w', by simpa using hw', h1', h2'⟩

lemma find?_of_first (p : String → Bool) :
    ∀ (l : List String) (i : Nat) (a : String), l[i]? = some a →
      p a = true → (∀ k v, k < i → l[k]? = some v → p v = false) →
      l.find? p = some a := by
  intro l
  induction l with
  | nil => intro i a ha; simp at ha
  | cons c cs ih =>
    intro i a ha hp hf
    cases i with
    | zero =>
      rw [List.getElem?_cons_zero] at ha
      have : c = a := by injection ha
      subst this
      rw [List.find?_cons, hp]
    | succ i =>
      have hc : p c = false := hf 0 c (Nat.succ_pos i) List.getElem?_cons_zero
      rw [List.find?_cons, hc]
      exact ih i a (by simpa using ha) hp
        fun k v hk hkv => hf (k + 1) v (by omega) (by simpa using hkv)

lemma renameAll_of_not_mem {a : String} (b : String) {l : List String}
    (h : a ∉ l) : renameAll a b l = l := by
  unfold renameAll
  have : ∀ c ∈ l, (if c = a then b else c) = id c := by
    intro c hc
    have : c ≠ a := fun e => h (e ▸ hc)
    simp [this]
  rw [List.map_congr_left this, List.map_id]

lemma renameAll_self (a : String) (l : List String) : renameAll a a l = l := by
  unfold renameAll
  have : ∀ c ∈ l, (if c = a then a else c) = id c := by
    intro c _
    by_cases h : c = a <;> simp [h]
  rw [List.map_congr_left this, List.map_id]

lemma mem_renameAll {x a b : String} {l : List String}
    (h : x ∈ renameAll a b l) : x = b ∨ x ∈ l := by
  unfold renameAll at h
  obtain ⟨y, hy, hxy⟩ := List.mem_map.mp h
  by_cases hya : y = a
  · rw [hya, if_pos rfl] at hxy; exact Or.inl hxy.symm
  · rw [if_neg hya] at hxy; exact Or.inr (hxy ▸ hy)

lemma renameAll_nodup {a b : String} {l : List String}
    (hnd : l.Nodup) (hb : b ∉ l) : (renameAll a b l).Nodup := by
  induction l with
  | nil => simp [renameAll]
  | cons c cs ih =>
    rw [List.nodup_cons] at hnd
    have hbcs : b ∉ cs := fun h => hb (List.mem_cons_of_mem c h)
    show ((c :: cs).map _).Nodup
    rw [List.map_cons]
    by_cases hca : c = a
    · rw [if_pos hca]
      have hacs : a ∉ cs := hca ▸ hnd.1
      have : cs.map (fun x => if x = a then b else x) = cs :=
        renameAll_of_not_mem b hacs
      rw [this]
      exact List.nodup_cons.mpr ⟨hbcs, hnd.2⟩
    · rw [if_neg hca]
      refine List.nodup_cons.mpr ⟨?_, ih hnd.2 hbcs⟩
      intro hc
      rcases mem_renameAll hc with rfl | hc
      · exact hb (List.mem_cons_self c cs)
      · exact hnd.1 hc

lemma mem_applyMapping {x : String} {cols : List String}
    {e : String × List String} (h : x ∈ applyMapping cols e) :
    x = e.1 ∨ x ∈ cols := by
  unfold applyMapping at h
  cases hf : cols.find? (fun c => e.2.contains c) with
  | none => rw [hf] at h; exact Or.inr h
  | some a => rw [hf] at h; exact mem_renameAll h

lemma mapping_nodup : columnMapping.Nodup := by decide

lemma mapping_canon_mem : ∀ e ∈ columnMapping, e.1 ∈ e.2 := by decide

lemma mapping_pairwise :
    List.Pairwise (fun e e' => noInterfere e e' ∧ noInterfere e' e)
      columnMapping := by decide

lemma normalizeCols_decompose {e : String × List String}
    (he : e ∈ columnMapping) :
    ∃ pre post, columnMapping = pre ++ e :: post ∧
      (∀ e' ∈ pre, noInterfere e e' ∧ noInterfere e' e) ∧
      (∀ e' ∈ post, noInterfere e e' ∧ noInterfere e' e) := by
  obtain ⟨pre, post, h⟩ := List.append_of_mem he
  have hnd := mapping_nodup
  rw [h, List.nodup_append, List.nodup_cons] at hnd
  have hpw := mapping_pairwise
  rw [h] at hpw
  have hpre : ∀ e' ∈ pre, noInterfere e e' ∧ noInterfere e' e := by
    intro e' he'
    have := (List.pairwise_append.mp hpw).2.2 e' he' e (List.mem_cons_self e post)
    exact ⟨this.2, this.1⟩
  have hpost : ∀ e' ∈ post, noInterfere e e' ∧ noInterfere e' e := by
    intro e' he'
    have hc := List.pairwise_cons.mp (List.pairwise_append.mp hpw).2.1
    exact hc.1 e' he'
  exact ⟨pre, post, h, hpre, hpost⟩

/-- Where the first-match column for entry e sits at position i, the fold
renames position i (and every position holding the same label) to the
canonical name, and leaves other matching labels alone. -/
lemma normalizeCols_first_match {cols : List String}
    {e : String × List String} (he : e ∈ columnMapping) {i j : Nat}
    {a b : String} (hij : i < j)
    (ha : (cols.map normName)[i]? = some a)
    (hb : (cols.map normName)[j]? = some b)
    (hae : a ∈ e.2) (hbe : b ∈ e.2)
    (hfirst : ∀ k v, k < i → (cols.map normName)[k]? = some v → v ∉ e.2) :
    (normalizeCols cols)[i]? = some e.1 ∧
      (normalizeCols cols)[j]? = some (if b = a then e.1 else b) := by
  obtain ⟨pre, post, hdec, hpre, hpost⟩ := normalizeCols_decompose he
  unfold normalizeCols
  rw [hdec, List.foldl_append, List.foldl_cons]
  set L := cols.map normName with hL
  set M := pre.foldl applyMapping L with hM
  have hMi : M[i]? = some a :=
    fold_preserve_of_not_mem pre L i a ha
      fun e' he' => (hpre e' he').1.1 a hae
  have hMj : M[j]? = some b :=
    fold_preserve_of_not_mem pre L j b hb
      fun e' he' => (hpre e' he').1.1 b hbe
  have hfM : M.find? (fun c => e.2.contains c) = some a := by
    refine find?_of_first _ M i a hMi (by simpa using hae) ?_
    intro k v hk hkv
    have hkL : k < L.length := by
      have hiL : i < L.length := by
        have := List.getElem?_eq_some.mp ha
        rw [hL]
        exact this.1
      omega
    obtain ⟨v₀, hv₀⟩ : ∃ v₀, L[k]? = some v₀ := by
      rcases hL0 : L[k]? with _ | v₀
      · rw [List.getElem?_eq_none_iff] at hL0; omega
      · exact ⟨v₀, rfl⟩
    have hv₀e : v₀ ∉ e.2 := hfirst k v₀ hk hv₀
    obtain ⟨w, hw, _, h2⟩ := fold_match_pointwise e pre L k v₀ hv₀
      fun e' he' => (hpre e' he').1
    rw [hM] at hkv
    rw [hw] at hkv
    have : v = w := by injection hkv.symm
    subst this
    simpa using h2 hv₀e
  have hstep : applyMapping M e = renameAll a e.1 M := by
    unfold applyMapping
    rw [hfM]
  rw [hstep]
  have hRi : (renameAll a e.1 M)[i]? = some e.1 := by
    rw [renameAll_getElem?, hMi]
    simp
  have hRj : (renameAll a e.1 M)[j]? = some (if b = a then e.1 else b) := by
    rw [renameAll_getElem?, hMj]
    rfl
  have hcanon : e.1 ∈ e.2 := mapping_canon_mem e he
  constructor
  · exact fold_preserve_of_not_mem post _ i e.1 hRi
      fun e' he' => (hpost e' he').1.1 e.1 hcanon
  · by_cases hba : b = a
    · rw [if_pos hba] at hRj ⊢
      exact fold_preserve_of_not_mem post _ j e.1 hRj
        fun e' he' => (hpost e' he').1.1 e.1 hcanon
    · rw [if_neg hba] at hRj ⊢
      exact fold_preserve_of_not_mem post _ j b hRj
        fun e' he' => (hpost e' he').1.1 b hbe

/-- Columns whose normalized name matches no synonym keep that normalized
name at their position. -/
lemma normalizeCols_unmatched {cols : List String} {k : Nat} {v : String}
    (hk : (cols.map normName)[k]? = some v) (hv : v ∉ allSyns) :
    (normalizeCols cols)[k]? = some v := by
  unfold normalizeCols
  refine fold_preserve_of_not_mem columnMapping _ k v hk ?_
  intro e' he' hmem
  exact hv (by
    unfold allSyns
    rw [List.mem_join]
    exact ⟨e'.2, List.mem_map_of_mem Prod.snd he', hmem⟩)

/-- The mapping fold keeps the column list duplicate-free provided the
canonical name, when already present, is itself the first match of its
entry. -/
lemma fold_nodup :
    ∀ (es : List (String × List String)) (l : List String),
      List.Pairwise (fun e e' => noInterfere e e' ∧ noInterfere e' e) es →
      (∀ e ∈ es, e.1 ∈ e.2) → l.Nodup →
      (∀ e ∈ es, e.1 ∈ l → l.find? (fun c => e.2.contains c) = some e.1) →
      (es.foldl applyMapping l).Nodup := by
  intro es
  induction es with
  | nil => intro l _ _ hnd _; exact hnd
  | cons e es ih =>
    intro l hpair hcan hnd hfirst
    rw [List.pairwise_cons] at hpair
    rw [List.foldl_cons]
    have hcan_e : e.1 ∈ e.2 := hcan e (List.mem_cons_self e es)
    have hnd' : (applyMapping l e).Nodup := by
      unfold applyMapping
      cases hf : l.find? (fun c => e.2.contains c) with
      | none => exact hnd
      | some a =>
        by_cases hel : e.1 ∈ l
        · have h1 := hfirst e (List.mem_cons_self e es) hel
          rw [hf] at h1
          have ha1 : a = e.1 := by injection h1
          subst ha1
          show (renameAll e.1 e.1 l).Nodup
          rw [renameAll_self]
          exact hnd
        · exact renameAll_nodup hnd hel
    have hlen : (applyMapping l e).length = l.length := applyMapping_length _ _
    have hfirst' : ∀ e' ∈ es, e'.1 ∈ applyMapping l e →
        (applyMapping l e).find? (fun c => e'.2.contains c) = some e'.1 := by
      intro e' he' hmem
      have hni := hpair.1 e' he'
      have hne : e'.1 ≠ e.1 := by
        intro h
        exact hni.1.2 (h ▸ hcan_e)
      have hmem_l : e'.1 ∈ l := by
        rcases mem_applyMapping hmem with h | h
        · exact absurd h hne
        · exact h
      have hpt : ∀ (k : Nat) (v : String), l[k]? = some v →
          ∃ w, (applyMapping l e)[k]? = some w ∧
          ((fun c => e'.2.contains c) v = true → w = v) ∧
          ((fun c => e'.2.contains c) v = false →
            (fun c => e'.2.contains c) w = false) := by
        intro k v hk
        by_cases hv : v ∈ e'.2
        · have hv2 : v ∉ e.2 := hni.2.1 v hv
          refine ⟨v, applyMapping_getElem?_of_not_mem hk hv2,
            fun _ => rfl, fun h => ?_⟩
          simp at h
          exact absurd hv h
        · rcases applyMapping_getElem?_or (e := e) hk with h1 | h1
          · refine ⟨v, h1, fun _ => rfl, fun h => h⟩
          · refine ⟨e.1, h1, fun h => ?_, fun _ => ?_⟩
            · simp at h
              exact absurd h hv
            · simpa using hni.2.2
      rw [find?_congr_pointwise _ l (applyMapping l e) hlen.symm hpt]
      exact hfirst e' (List.mem_cons_of_mem e he') hmem_l
    exact ih (applyMapping l e) hpair.2
      (fun e' he' => hcan e' (List.mem_cons_of_mem e he')) hnd' hfirst'

/-- Normalized output columns are duplicate-free under the first-match
condition on canonical names. -/
lemma normalizeCols_nodup {cols : List String}
    (hnd : (cols.map normName).Nodup)
    (hfirst : ∀ e ∈ columnMapping, e.1 ∈ cols.map normName →
      (cols.map normName).find? (fun c => e.2.contains c) = some e.1) :
    (normalizeCols cols).Nodup :=
  fold_nodup columnMapping (cols.map normName) mapping_pairwise
    mapping_canon_mem hnd hfirst

/- Label lookup lemmas. -/

lemma idxOf?_eq_some {c : String} :
    ∀ {cols : List String} {i : Nat}, idxOf? c cols = some i →
      cols[i]? = some c := by
  intro cols
  induction cols with
  | nil => intro i h; simp [idxOf?] at h
  | cons c' cs ih =>
    intro i h
    unfold idxOf? at h
    by_cases hc : c' = c
    · rw [if_pos hc] at h
      have : i = 0 := by injection h with h; omega
      subst this
      rw [List.getElem?_cons_zero, hc]
    · rw [if_neg hc] at h
      cases hidx : idxOf? c cs with
      | none => rw [hidx] at h; simp at h
      | some j =>
        rw [hidx] at h
        simp only [Option.map_some'] at h
        have : i = j + 1 := by injection h with h; omega
        subst this
        rw [List.getElem?_cons_succ]
        exact ih hidx

lemma idxOf?_lt_length {c : String} {cols : List String} {i : Nat}
    (h : idxOf? c cols = some i) : i < cols.length :=
  (List.getElem?_eq_some.mp (idxOf?_eq_some h)).1

lemma idxOf?_eq_none {c : String} :
    ∀ {cols : List String}, idxOf? c cols = none ↔ c ∉ cols := by
  intro cols
  induction cols with
  | nil => simp [idxOf?]
  | cons c' cs ih =>
    unfold idxOf?
    by_cases hc : c' = c
    · simp [hc]
    · simp only [if_neg hc, List.mem_cons]
      cases hidx : idxOf? c cs with
      | none =>
        simp only [Option.map_none', true_iff]
        intro hmem
        rcases hmem with h | h
        · exact hc h.symm
        · exact (ih.mp hidx) h
      | some j =>
        simp only [Option.map_some']
        constructor
        · intro h; cases h
        · intro h
          exfalso
          apply h
          right
          by_contra hn
          rw [ih.mpr hn] at hidx
          cases hidx

lemma idxOf?_of_mem {c : String} {cols : List String} (h : c ∈ cols) :
    ∃ i, idxOf? c cols = some i := by
  cases hidx : idxOf? c cols with
  | none => exact absurd h (idxOf?_eq_none.mp hidx)
  | some i => exact ⟨i, rfl⟩

lemma idxOf?_cons (c c' : String) (cs : List String) :
    idxOf? c (c' :: cs) =
      if c' = c then some 0 else (idxOf? c cs).map (· + 1) := rfl

lemma idxOf?_append_left {c : String} {l : List String} {i : Nat}
    (l' : List String) (h : idxOf? c l = some i) :
    idxOf? c (l ++ l') = some i := by
  induction l generalizing i with
  | nil => simp [idxOf?] at h
  | cons c' cs ih =>
    rw [idxOf?_cons] at h
    rw [List.cons_append, idxOf?_cons]
    by_cases hc : c' = c
    · rwa [if_pos hc] at h ⊢
    · rw [if_neg hc] at h ⊢
      cases hidx : idxOf? c cs with
      | none => rw [hidx] at h; cases h
      | some j =>
        rw [hidx] at h
        rw [ih hidx]
        exact h

lemma idxOf?_append_right {c : String} {l : List String}
    (l' : List String) (h : idxOf? c l = none) :
    idxOf? c (l ++ l') = (idxOf? c l').map (· + l.length) := by
  induction l with
  | nil => simp [idxOf?]
  | cons c' cs ih =>
    rw [idxOf?_cons] at h
    rw [List.cons_append, idxOf?_cons]
    by_cases hc : c' = c
    · rw [if_pos hc] at h; cases h
    · rw [if_neg hc] at h ⊢
      have hcs : idxOf? c cs = none := by
        cases hidx : idxOf? c cs with
        | none => rfl
        | some j => rw [hidx] at h; cases h
      rw [ih hcs]
      cases ho : idxOf? c l' <;> simp [List.length_cons] <;> omega

lemma getCell_of_idx {cols : List String} {r : List Value} {c : String}
    {i : Nat} (h : idxOf? c cols = some i) :
    getCell cols r c = (r[i]?).getD Value.vNull := by
  unfold getCell
  rw [h]

lemma getCell_not_mem {cols : List String} {r : List Value} {c : String}
    (h : c ∉ cols) : getCell cols r c = Value.vNull := by
  unfold getCell
  rw [idxOf?_eq_none.mpr h]

/- Coercion lemmas. -/

lemma coerceCell_null (c : String) : coerceCell c Value.vNull = Value.vNull := by
  unfold coerceCell
  by_cases h1 : c = "date"
  · rw [if_pos h1]; decide
  · rw [if_neg h1]
    by_cases h2 : c = "revenue"
    · rw [if_pos h2]; decide
    · rw [if_neg h2]
      by_cases h3 : c = "quantity"
      · rw [if_pos h3]; decide
      · rw [if_neg h3]

lemma zip_getElem? :
    ∀ (l₁ : List String) (l₂ : List Value) (k : Nat) (c : String) (v : Value),
      l₁[k]? = some c → l₂[k]? = some v → (l₁.zip l₂)[k]? = some (c, v) := by
  intro l₁
  induction l₁ with
  | nil => intro l₂ k c v h; simp at h
  | cons a l₁ ih =>
    intro l₂ k c v h1 h2
    cases l₂ with
    | nil => simp at h2
    | cons b l₂ =>
      cases k with
      | zero =>
        rw [List.getElem?_cons_zero] at h1 h2
        have ha : a = c := by injection h1
        have hb : b = v := by injection h2
        rw [List.zip_cons_cons, ha, hb, List.getElem?_cons_zero]
      | succ k =>
        rw [List.getElem?_cons_succ] at h1 h2
        rw [List.zip_cons_cons, List.getElem?_cons_succ]
        exact ih l₂ k c v h1 h2

lemma coerceRow_length {cols : List String} {r : List Value}
    (h : r.length = cols.length) :
    (coerceRow cols r).length = cols.length := by
  unfold coerceRow
  rw [List.length_map, List.length_zip, h]
  omega

lemma getCell_coerceRow {cols : List String} {r : List Value} (c : String)
    (hwf : r.length = cols.length) :
    getCell cols (coerceRow cols r) c = coerceCell c (getCell cols r c) := by
  cases hidx : idxOf? c cols with
  | none =>
    rw [getCell_not_mem (idxOf?_eq_none.mp hidx),
      getCell_not_mem (idxOf?_eq_none.mp hidx), coerceCell_null]
  | some i =>
    have hi : i < cols.length := idxOf?_lt_length hidx
    have hcol : cols[i]? = some c := idxOf?_eq_some hidx
    obtain ⟨v, hv⟩ : ∃ v, r[i]? = some v := by
      cases hr : r[i]? with
      | none => rw [List.getElem?_eq_none_iff] at hr; omega
      | some v => exact ⟨v, rfl⟩
    rw [getCell_of_idx hidx, getCell_of_idx hidx, hv, Option.getD_some]
    unfold coerceRow
    rw [List.getElem?_map, zip_getElem? cols r i c v hcol hv]
    rfl

/- Column assignment lemmas. -/

lemma setColumn_spec (t : Table) (c : String) (f : List Value → Value)
    (hwf : ∀ r ∈ t.rows, r.length = t.cols.length) :
    ∃ g, (setColumn t c f).rows = t.rows.map g ∧
      ∀ r ∈ t.rows,
        (g r).length = (setColumn t c f).cols.length ∧
        getCell (setColumn t c f).cols (g r) c = f r ∧
        ∀ c', c' ≠ c →
          getCell (setColumn t c f).cols (g r) c' = getCell t.cols r c' := by
  unfold setColumn
  cases hidx : idxOf? c t.cols with
  | some i =>
    refine ⟨fun r => r.set i (f r), rfl, ?_⟩
    intro r hr
    have hlen := hwf r hr
    have hi : i < t.cols.length := idxOf?_lt_length hidx
    refine ⟨by rw [List.length_set]; exact hlen, ?_, ?_⟩
    · rw [getCell_of_idx hidx, List.getElem?_set_self (by omega),
        Option.getD_some]
    · intro c' hc'
      cases hidx' : idxOf? c' t.cols with
      | none =>
        rw [getCell_not_mem (idxOf?_eq_none.mp hidx'),
          getCell_not_mem (idxOf?_eq_none.mp hidx')]
      | some j =>
        have hji : i ≠ j := by
          intro h
          have h1 := idxOf?_eq_some hidx
          have h2 := idxOf?_eq_some hidx'
          rw [← h] at h2
          rw [h1] at h2
          have : c = c' := by injection h2
          exact hc' this.symm
        rw [getCell_of_idx hidx', getCell_of_idx hidx',
          List.getElem?_set_ne hji]
  | none =>
    refine ⟨fun r => r ++ [f r], rfl, ?_⟩
    intro r hr
    have hlen := hwf r hr
    refine ⟨by rw [List.length_append, List.length_append, hlen]; rfl, ?_, ?_⟩
    · have hida : idxOf? c (t.cols ++ [c]) = some t.cols.length := by
        rw [idxOf?_append_right [c] hidx]
        simp [idxOf?]
      rw [getCell_of_idx hida, ← hlen, List.getElem?_concat_length,
        Option.getD_some]
    · intro c' hc'
      cases hidx' : idxOf? c' t.cols with
      | some j =>
        have hida := idxOf?_append_left [c] hidx'
        have hj : j < t.cols.length := idxOf?_lt_length hidx'
        rw [getCell_of_idx hida, getCell_of_idx hidx',
          List.getElem?_append]
        rw [if_pos (by omega)]
      | none =>
        have hida : idxOf? c' (t.cols ++ [c]) = none := by
          rw [idxOf?_append_right [c] hidx']
          have : idxOf? c' [c] = none := by
            rw [idxOf?_eq_none]
            simp only [List.mem_singleton]
            exact hc'
          rw [this]
          rfl
        rw [getCell_not_mem (idxOf?_eq_none.mp hida),
          getCell_not_mem (idxOf?_eq_none.mp hidx')]

lemma withDerived_spec (t : Table)
    (hwf : ∀ r ∈ t.rows, r.length = t.cols.length) :
    ∃ g, (withDerived t).rows = t.rows.map g ∧
      ∀ r ∈ t.rows,
        getCell (withDerived t).cols (g r) "year" =
          yearVal (getCell t.cols r "date") ∧
        getCell (withDerived t).cols (g r) "month" =
          monthVal (getCell t.cols r "date") ∧
        getCell (withDerived t).cols (g r) "year_month" =
          ymVal (getCell t.cols r "date") ∧
        ∀ c', c' ≠ "year" → c' ≠ "month" → c' ≠ "year_month" →
          getCell (withDerived t).cols (g r) c' = getCell t.cols r c' := by
  obtain ⟨g1, hg1, h1⟩ := setColumn_spec t "year"
    (fun r => yearVal (getCell t.cols r "date")) hwf
  set t1 := setColumn t "year" (fun r => yearVal (getCell t.cols r "date"))
    with ht1
  have hwf1 : ∀ r ∈ t1.rows, r.length = t1.cols.length := by
    rw [hg1]
    intro r hr
    obtain ⟨r0, hr0, rfl⟩ := List.mem_map.mp hr
    exact (h1 r0 hr0).1
  obtain ⟨g2, hg2, h2⟩ := setColumn_spec t1 "month"
    (fun r => monthVal (getCell t1.cols r "date")) hwf1
  set t2 := setColumn t1 "month" (fun r => monthVal (getCell t1.cols r "date"))
    with ht2
  have hwf2 : ∀ r ∈ t2.rows, r.length = t2.cols.length := by
    rw [hg2]
    intro r hr
    obtain ⟨r0, hr0, rfl⟩ := List.mem_map.mp hr
    exact (h2 r0 hr0).1
  obtain ⟨g3, hg3, h3⟩ := setColumn_spec t2 "year_month"
    (fun r => ymVal (getCell t2.cols r "date")) hwf2
  have hwd : withDerived t =
      setColumn t2 "year_month" (fun r => ymVal (getCell t2.cols r "date")) :=
    rfl
  refine ⟨fun r => g3 (g2 (g1 r)), ?_, ?_⟩
  · rw [hwd, hg3, hg2, hg1, List.map_map, List.map_map]
    rfl
  · intro r hr
    have hr1 : g1 r ∈ t1.rows := by
      rw [hg1]; exact List.mem_map_of_mem g1 hr
    have hr2 : g2 (g1 r) ∈ t2.rows := by
      rw [hg2]; exact List.mem_map_of_mem g2 hr1
    have hd1 : getCell t1.cols (g1 r) "date" = getCell t.cols r "date" :=
      (h1 r hr).2.2 "date" (by decide)
    have hd2 : getCell t2.cols (g2 (g1 r)) "date" =
        getCell t1.cols (g1 r) "date" :=
      (h2 (g1 r) hr1).2.2 "date" (by decide)
    refine ⟨?_, ?_, ?_, ?_⟩
    · rw [hwd]
      rw [(h3 (g2 (g1 r)) hr2).2.2 "year" (by decide),
        (h2 (g1 r) hr1).2.2 "year" (by decide), (h1 r hr).2.1]
    · rw [hwd]
      rw [(h3 (g2 (g1 r)) hr2).2.2 "month" (by decide),
        (h2 (g1 r) hr1).2.1, hd1]
    · rw [hwd]
      rw [(h3 (g2 (g1 r)) hr2).2.1, hd2, hd1]
    · intro c' hy hm hym
      rw [hwd]
      rw [(h3 (g2 (g1 r)) hr2).2.2 c' hym, (h2 (g1 r) hr1).2.2 c' hm,
        (h1 r hr).2.2 c' hy]

/- Value shape lemmas. -/

lemma dateCoerce_shape (v : Value) :
    dateCoerce v = Value.vNull ∨
      ∃ y mo d, dateCoerce v = Value.vDate y mo d := by
  cases v with
  | vNull => exact Or.inl rfl
  | vStr s =>
    cases h : parseDateChars (trimChars s.toList) with
    | none =>
      left
      have h' : parseDateChars (trimChars s.data) = none := h
      simp [dateCoerce, h']
    | some p =>
      obtain ⟨y, mo, d⟩ := p
      right
      have h' : parseDateChars (trimChars s.data) = some (y, mo, d) := h
      exact ⟨y, mo, d, by simp [dateCoerce, h']⟩
  | vNum m e => exact Or.inl rfl
  | vDate y mo d => exact Or.inr ⟨y, mo, d, rfl⟩

lemma quantityCoerce_shape (v : Value) :
    quantityCoerce v = Value.vNull ∨
      ∃ m e, quantityCoerce v = Value.vNum m e := by
  cases v with
  | vNull => exact Or.inl rfl
  | vStr s =>
    cases h : parseNumChars s.toList with
    | none =>
      left
      have h' : parseNumChars s.data = none := h
      simp [quantityCoerce, h']
    | some p =>
      obtain ⟨m, e⟩ := p
      right
      have h' : parseNumChars s.data = some (m, e) := h
      exact ⟨m, e, by simp [quantityCoerce, h']⟩
  | vNum m e => exact Or.inr ⟨m, e, rfl⟩
  | vDate y mo d => exact Or.inl rfl

/- Cleaning-stage characterization. -/

lemma cleanTable_req {t t' : Table}
    (hok : cleanTable t = Except.ok t') : ∀ c ∈ requiredCols, c ∈ t.cols := by
  intro c hc
  unfold cleanTable dropna at hok
  by_cases hall :
      requiredCols.all (fun c => (coerceTable t).cols.contains c) = true
  · have := List.all_eq_true.mp hall c hc
    simpa using this
  · rw [if_neg hall] at hok
    cases hok

lemma cleanTable_ok_of_req {t : Table}
    (hreq : ∀ c ∈ requiredCols, c ∈ t.cols) :
    cleanTable t = Except.ok (withDerived
      { cols := t.cols,
        rows := (t.rows.map (coerceRow t.cols)).filter
          (rowComplete t.cols requiredCols) }) := by
  unfold cleanTable dropna coerceTable
  have hall : requiredCols.all (fun c => t.cols.contains c) = true := by
    rw [List.all_eq_true]
    intro c hc
    simpa using hreq c hc
  rw [if_pos hall]

lemma rowComplete_spec {cols : List String} {r : List Value}
    (h : rowComplete cols requiredCols r = true) :
    ∀ c ∈ requiredCols, getCell cols r c ≠ Value.vNull := by
  intro c hc
  have := List.all_eq_true.mp h c hc
  simpa using this

lemma rowComplete_of {cols : List String} {r : List Value}
    (h : ∀ c ∈ requiredCols, getCell cols r c ≠ Value.vNull) :
    rowComplete cols requiredCols r = true := by
  rw [rowComplete, List.all_eq_true]
  intro c hc
  simpa using h c hc

/-- Output guarantee of the cleaning stage: every surviving row has
non-null date, revenue, store_id, year, month and year_month. -/
lemma clean_output_fields {t t' : Table}
    (hwf : ∀ r ∈ t.rows, r.length = t.cols.length)
    (hok : cleanTable t = Except.ok t') :
    ∀ r' ∈ t'.rows,
      getCell t'.cols r' "date" ≠ Value.vNull ∧
      getCell t'.cols r' "revenue" ≠ Value.vNull ∧
      getCell t'.cols r' "store_id" ≠ Value.vNull ∧
      getCell t'.cols r' "year" ≠ Value.vNull ∧
      getCell t'.cols r' "month" ≠ Value.vNull ∧
      getCell t'.cols r' "year_month" ≠ Value.vNull := by
  have hreq := cleanTable_req hok
  have hc := cleanTable_ok_of_req hreq
  rw [hc] at hok
  have ht' : t' = withDerived
      { cols := t.cols,
        rows := (t.rows.map (coerceRow t.cols)).filter
          (rowComplete t.cols requiredCols) } := by
    injection hok with h
    exact h.symm
  subst ht'
  set u : Table :=
    { cols := t.cols,
      rows := (t.rows.map (coerceRow t.cols)).filter
        (rowComplete t.cols requiredCols) } with hu
  have hwfu : ∀ r ∈ u.rows, r.length = u.cols.length := by
    intro r hr
    have hr2 := (List.mem_filter.mp hr).1
    obtain ⟨ra, hra, rfl⟩ := List.mem_map.mp hr2
    exact coerceRow_length (hwf ra hra)
  obtain ⟨g, hg, hcells⟩ := withDerived_spec u hwfu
  intro r' hr'
  rw [hg] at hr'
  obtain ⟨r0, hr0, rfl⟩ := List.mem_map.mp hr'
  have hmem := (List.mem_filter.mp hr0).1
  have hcomp := (List.mem_filter.mp hr0).2
  obtain ⟨ra, hra, hr0a⟩ := List.mem_map.mp hmem
  have hnn := rowComplete_spec hcomp
  have hdate : getCell u.cols r0 "date" ≠ Value.vNull :=
    hnn "date" (by decide)
  have hdshape : ∃ y mo d, getCell u.cols r0 "date" = Value.vDate y mo d := by
    rw [← hr0a, getCell_coerceRow "date" (hwf ra hra)]
    rw [← hr0a, getCell_coerceRow "date" (hwf ra hra)] at hdate
    rcases dateCoerce_shape (getCell t.cols ra "date") with h | h
    · rw [show coerceCell "date" (getCell t.cols ra "date") =
        dateCoerce (getCell t.cols ra "date") from rfl] at hdate ⊢
      exact absurd h hdate
    · rw [show coerceCell "date" (getCell t.cols ra "date") =
        dateCoerce (getCell t.cols ra "date") from rfl]
      exact h
  obtain ⟨y, mo, d, hymd⟩ := hdshape
  have hc4 := hcells r0 hr0
  refine ⟨?_, ?_, ?_, ?_, ?_, ?_⟩
  · rw [hc4.2.2.2 "date" (by decide) (by decide) (by decide)]
    exact hdate
  · rw [hc4.2.2.2 "revenue" (by decide) (by decide) (by decide)]
    exact hnn "revenue" (by decide)
  · rw [hc4.2.2.2 "store_id" (by decide) (by decide) (by decide)]
    exact hnn "store_id" (by decide)
  · rw [hc4.1, hymd]
    intro h
    cases h
  · rw [hc4.2.1, hymd]
    intro h
    cases h
  · rw [hc4.2.2.1, hymd]
    intro h
    cases h

/-- Retention: a row whose coerced required fields are non-null survives
cleaning, agreeing with its coerced form on every non-derived column. -/
lemma clean_retention {t t' : Table}
    (hwf : ∀ r ∈ t.rows, r.length = t.cols.length)
    (hok : cleanTable t = Except.ok t')
    {r : List Value} (hr : r ∈ t.rows)
    (hd : getCell t.cols (coerceRow t.cols r) "date" ≠ Value.vNull)
    (hv : getCell t.cols (coerceRow t.cols r) "revenue" ≠ Value.vNull)
    (hs : getCell t.cols (coerceRow t.cols r) "store_id" ≠ Value.vNull) :
    ∃ r' ∈ t'.rows, ∀ c', c' ≠ "year" → c' ≠ "month" → c' ≠ "year_month" →
      getCell t'.cols r' c' = getCell t.cols (coerceRow t.cols r) c' := by
  have hreq := cleanTable_req hok
  have hc := cleanTable_ok_of_req hreq
  rw [hc] at hok
  have ht' : t' = withDerived
      { cols := t.cols,
        rows := (t.rows.map (coerceRow t.cols)).filter
          (rowComplete t.cols requiredCols) } := by
    injection hok with h
    exact h.symm
  subst ht'
  set u : Table :=
    { cols := t.cols,
      rows := (t.rows.map (coerceRow t.cols)).filter
        (rowComplete t.cols requiredCols) } with hu
  have hwfu : ∀ r0 ∈ u.rows, r0.length = u.cols.length := by
    intro r0 hr0
    have hr2 := (List.mem_filter.mp hr0).1
    obtain ⟨ra, hra, rfl⟩ := List.mem_map.mp hr2
    exact coerceRow_length (hwf ra hra)
  obtain ⟨g, hg, hcells⟩ := withDerived_spec u hwfu
  have hcomp : rowComplete t.cols requiredCols (coerceRow t.cols r) = true := by
    apply rowComplete_of
    intro c hcm
    simp only [requiredCols, List.mem_cons, List.not_mem_nil, or_false] at hcm
    rcases hcm with rfl | rfl | rfl
    · exact hd
    · exact hv
    · exact hs
  have hr0 : coerceRow t.cols r ∈ u.rows :=
    List.mem_filter.mpr ⟨List.mem_map_of_mem _ hr, hcomp⟩
  refine ⟨g (coerceRow t.cols r), ?_, ?_⟩
  · rw [hg]
    exact List.mem_map_of_mem g hr0
  · intro c' hy hm hym
    exact (hcells _ hr0).2.2.2 c' hy hm hym

/- Concatenation well-formedness. -/

lemma foldl_concat_mem (cs : List String) :
    ∀ (ts : List Table) (acc : List (List Value)) (r : List Value),
      r ∈ ts.foldl
        (fun acc t => acc ++ t.rows.map fun r => cs.map (getCell t.cols r))
        acc →
      r ∈ acc ∨ ∃ t0 r0, t0 ∈ ts ∧ r0 ∈ t0.rows ∧
        r = cs.map (getCell t0.cols r0) := by
  intro ts
  induction ts with
  | nil => intro acc r h; exact Or.inl h
  | cons t ts ih =>
    intro acc r h
    rw [List.foldl_cons] at h
    rcases ih _ r h with h1 | ⟨t0, r0, ht0, hr0, hr⟩
    · rcases List.mem_append.mp h1 with h2 | h2
      · exact Or.inl h2
      · obtain ⟨r0, hr0, rfl⟩ := List.mem_map.mp h2
        exact Or.inr ⟨t, r0, List.mem_cons_self t ts, hr0, rfl⟩
    · exact Or.inr ⟨t0, r0, List.mem_cons_of_mem t ht0, hr0, hr⟩

lemma concatTables_wf (ts : List Table) :
    ∀ r ∈ (concatTables ts).rows, r.length = (concatTables ts).cols.length := by
  intro r hr
  have : (concatTables ts).cols = unionCols ts := rfl
  rcases foldl_concat_mem (unionCols ts) ts [] r hr with h | ⟨t0, r0, _, _, rfl⟩
  · cases h
  · rw [this, List.length_map]

lemma normalizeTable_wf {t : Table}
    (h : ∀ r ∈ t.rows, r.length = t.cols.length) :
    ∀ r ∈ (normalizeTable t).rows,
      r.length = (normalizeTable t).cols.length := by
  intro r hr
  show r.length = (normalizeCols t.cols).length
  rw [normalizeCols_length]
  exact h r hr

lemma transform_ne_empty {tables : List Table} (hne : tables ≠ []) :
    transform tables =
      match cleanTable (normalizeTable (concatTables tables)) with
      | Except.ok t => Except.ok (some t)
      | Except.error e => Except.error e := by
  unfold transform
  rw [if_neg (by simpa [List.isEmpty_iff] using hne)]

/- Aggregation lemmas. -/

lemma firstDedup_mem :
    ∀ {l : List (Value × Value)} {x : Value × Value},
      x ∈ firstDedup l ↔ x ∈ l := by
  intro l
  induction l with
  | nil => intro x; simp [firstDedup]
  | cons k ks ih =>
    intro x
    show x ∈ k :: (firstDedup ks).filter (fun y => decide (y ≠ k)) ↔ _
    constructor
    · intro h
      rcases List.mem_cons.mp h with rfl | h
      · exact List.mem_cons_self x ks
      · exact List.mem_cons_of_mem k (ih.mp (List.mem_filter.mp h).1)
    · intro h
      rcases List.mem_cons.mp h with rfl | h
      · exact List.mem_cons_self x _
      · by_cases hxk : x = k
        · rw [hxk]; exact List.mem_cons_self k _
        · exact List.mem_cons_of_mem k
            (List.mem_filter.mpr ⟨ih.mpr h, by simpa using hxk⟩)

lemma firstDedup_nodup : ∀ l : List (Value × Value), (firstDedup l).Nodup := by
  intro l
  induction l with
  | nil => simp [firstDedup]
  | cons k ks ih =>
    show (k :: (firstDedup ks).filter (fun y => decide (y ≠ k))).Nodup
    rw [List.nodup_cons]
    constructor
    · intro h
      have := (List.mem_filter.mp h).2
      simp at this
    · exact List.Nodup.filter _ ih

lemma aggregate_ok {now : String} {t : Table}
    (hcols : ∀ c ∈ aggCols, c ∈ t.cols) :
    aggregate now (some t) = Except.ok (some
      { cols := summaryCols,
        rows := (groupKeys t).map (summaryRow now t) }) := by
  have hall : (aggCols.all fun c => t.cols.contains c) = true := by
    rw [List.all_eq_true]
    intro c hc
    simpa using hcols c hc
  simp only [aggregate, hall, if_true]

lemma summaryRow_fields (now : String) (t : Table) (k : Value × Value) :
    getCell summaryCols (summaryRow now t k) "store_id" = k.1 ∧
    getCell summaryCols (summaryRow now t k) "year_month" = k.2 ∧
    getCell summaryCols (summaryRow now t k) "total_revenue" =
      Value.vNum (roundCenti (sumRevenue t.cols (groupRows t k))) 2 ∧
    getCell summaryCols (summaryRow now t k) "total_quantity" =
      Value.vNum (sumQty t.cols (groupRows t k)).1
        (sumQty t.cols (groupRows t k)).2 ∧
    getCell summaryCols (summaryRow now t k) "total_orders" =
      Value.vNum (countDates t.cols (groupRows t k) : Int) 0 ∧
    getCell summaryCols (summaryRow now t k) "report_generated" =
      Value.vStr now :=
  ⟨rfl, rfl, rfl, rfl, rfl, rfl⟩

lemma countDates_eq_length {cols : List String} {rows : List (List Value)}
    (h : ∀ r ∈ rows, getCell cols r "date" ≠ Value.vNull) :
    countDates cols rows = rows.length := by
  unfold countDates
  rw [List.countP_eq_length]
  intro r hr
  simpa using h r hr

lemma mem_groupKeys {t : Table} {r : List Value} (hr : r ∈ t.rows)
    (h1 : (keyOf t.cols r).1 ≠ Value.vNull)
    (h2 : (keyOf t.cols r).2 ≠ Value.vNull) :
    keyOf t.cols r ∈ groupKeys t := by
  unfold groupKeys
  rw [firstDedup_mem]
  apply List.mem_map_of_mem
  unfold keyedRows
  rw [List.mem_filter]
  refine ⟨hr, ?_⟩
  simp [h1, h2]

lemma groupKeys_nodup (t : Table) : (groupKeys t).Nodup :=
  firstDedup_nodup _

lemma cleanTable_error {t : Table} {c : String} (hc : c ∈ requiredCols)
    (hnot : c ∉ t.cols) : cleanTable t = Except.error "KeyError" := by
  unfold cleanTable dropna
  rw [if_neg]
  intro hall
  exact hnot (by simpa using List.all_eq_true.mp hall c hc)

/-
Claim theorems.

The ten claims of the specification follow.  General theorems carry a
Nodup hypothesis on the relevant column list: pandas raises on coercion,
dropna and groupby over duplicate column labels, so tables with repeated
labels fall outside the record-table model in which the claims are
phrased.
-/

/-- C1: the end-to-end scenario of the specification fails on the code.
Three one-row raw tables for stores A, B, C, using the three synonym
column sets with revenues 100, 200 and "$300.00" in 2024-03, should
produce three summary rows.  The code concatenates the tables before
renaming and, for each canonical name, renames only the first matching
column of the combined frame — here the first table's exact names — so
the rows of the second and third tables keep null canonical fields, are
dropped by the cleaner, and the pipeline yields a single summary row for
store A. -/
theorem c1_end_to_end_single_row :
    pipeline "2024-04-01 00:00:00" [rawA, rawB, rawC] =
      Except.ok (some scenarioSummary) ∧
    scenarioSummary.rows.length = 1 ∧ scenarioSummary.rows.length ≠ 3 :=
  ⟨rfl, rfl, by decide⟩

/-- C2 counterexample: when the date column is missing from every source,
cleaning raises (KeyError from `dropna` over an absent subset label)
instead of dropping all rows and continuing. -/
theorem c2_missing_column_raises :
    transform [noDateTable] = Except.error "KeyError" := rfl

/-- C2 (amended): if a required canonical column is missing from every
source, `transform` raises a KeyError; when all required canonical
columns are present after normalization, it does not raise, and every row
lacking a required field is dropped. -/
theorem c2_required_column_policy :
    (∀ tables : List Table, tables ≠ [] →
      (normalizeCols (unionCols tables)).Nodup →
      (∀ c ∈ requiredCols, c ∈ normalizeCols (unionCols tables)) →
      ∃ t', transform tables = Except.ok (some t') ∧
        ∀ r' ∈ t'.rows, ∀ c ∈ requiredCols,
          getCell t'.cols r' c ≠ Value.vNull) ∧
    (∀ (tables : List Table) (c : String), tables ≠ [] →
      c ∈ requiredCols → c ∉ normalizeCols (unionCols tables) →
      transform tables = Except.error "KeyError") := by
  constructor
  · intro tables hne hnd hreq
    have hwf := normalizeTable_wf (concatTables_wf tables)
    have hreq' : ∀ c ∈ requiredCols,
        c ∈ (normalizeTable (concatTables tables)).cols := hreq
    have hok := cleanTable_ok_of_req hreq'
    refine ⟨withDerived
      { cols := (normalizeTable (concatTables tables)).cols,
        rows := ((normalizeTable (concatTables tables)).rows.map
          (coerceRow (normalizeTable (concatTables tables)).cols)).filter
          (rowComplete (normalizeTable (concatTables tables)).cols
            requiredCols) }, ?_, ?_⟩
    · rw [transform_ne_empty hne, hok]
    · intro r' hr' c hc
      have h6 := clean_output_fields hwf hok r' hr'
      simp only [requiredCols, List.mem_cons, List.not_mem_nil,
        or_false] at hc
      rcases hc with rfl | rfl | rfl
      · exact h6.1
      · exact h6.2.1
      · exact h6.2.2.1
  · intro tables c hne hc hnot
    rw [transform_ne_empty hne,
      cleanTable_error hc (t := normalizeTable (concatTables tables)) hnot]

/-- C2 witness: a source whose rows sometimes lack a date still cleans
without raising, dropping exactly the incomplete rows. -/
theorem c2_witness :
    ([cleanWitnessTable] ≠ []) ∧
    (normalizeCols (unionCols [cleanWitnessTable])).Nodup ∧
    (∀ c ∈ requiredCols, c ∈ normalizeCols (unionCols [cleanWitnessTable])) ∧
    (∃ t', transform [cleanWitnessTable] = Except.ok (some t') ∧
      ∀ r' ∈ t'.rows, ∀ c ∈ requiredCols,
        getCell t'.cols r' c ≠ Value.vNull) ∧
    transform [noDateTable] = Except.error "KeyError" :=
  ⟨by decide, by decide, by decide,
   c2_required_column_policy.1 [cleanWitnessTable] (by decide) (by decide)
     (by decide),
   c2_required_column_policy.2 [noDateTable] "date" (by decide) (by decide)
     (by decide)⟩

/-- C3 counterexample: `transform` on an empty sequence of raw tables
returns no table at all (the stage is skipped and downstream state stays
None), not an empty zero-row table as the claim states. -/
theorem c3_empty_normalize_no_table :
    transform [] = Except.ok none ∧
      ¬ ∃ t : Table, transform [] = Except.ok (some t) := by
  refine ⟨rfl, ?_⟩
  rintro ⟨t, ht⟩
  rw [show transform [] = Except.ok none from rfl] at ht
  injection ht with h
  cases h

/-- C3 (amended): every stage accepts empty input without raising:
`transform` on an empty sequence returns without producing a table, and
`aggregate` then likewise returns without producing a summary; cleaning a
zero-row table bearing the canonical columns yields a zero-row cleaned
table, and aggregating a zero-row cleaned table yields a zero-row
summary. -/
theorem c3_empty_input_safety :
    transform [] = Except.ok none ∧
    aggregate "2024-04-01 00:00:00" none = Except.ok none ∧
    transform [emptyCanonical] = Except.ok (some emptyCleaned) ∧
    emptyCleaned.rows = [] ∧
    aggregate "2024-04-01 00:00:00" (some emptyCleaned) =
      Except.ok (some emptySummary) ∧
    emptySummary.rows = [] :=
  ⟨rfl, rfl, rfl, rfl, rfl, rfl⟩

/-- C4: required-field filtering.  For a well-formed table (rows as long
as the column list, duplicate-free labels — pandas raises on duplicate
labels), when cleaning succeeds: every output row has non-null date,
revenue, store_id, year, month and year_month; and every input row whose
coerced date, revenue and store_id are non-null — its quantity may be
anything, including null — is retained, agreeing with its coerced form on
every non-derived column. -/
theorem c4_required_field_filtering (t t' : Table)
    (hnd : t.cols.Nodup)
    (hwf : ∀ r ∈ t.rows, r.length = t.cols.length)
    (hok : cleanTable t = Except.ok t') :
    (∀ r' ∈ t'.rows,
      getCell t'.cols r' "date" ≠ Value.vNull ∧
      getCell t'.cols r' "revenue" ≠ Value.vNull ∧
      getCell t'.cols r' "store_id" ≠ Value.vNull ∧
      getCell t'.cols r' "year" ≠ Value.vNull ∧
      getCell t'.cols r' "month" ≠ Value.vNull ∧
      getCell t'.cols r' "year_month" ≠ Value.vNull) ∧
    (∀ r ∈ t.rows,
      getCell t.cols (coerceRow t.cols r) "date" ≠ Value.vNull →
      getCell t.cols (coerceRow t.cols r) "revenue" ≠ Value.vNull →
      getCell t.cols (coerceRow t.cols r) "store_id" ≠ Value.vNull →
      ∃ r' ∈ t'.rows, ∀ c', c' ≠ "year" → c' ≠ "month" →
        c' ≠ "year_month" →
        getCell t'.cols r' c' = getCell t.cols (coerceRow t.cols r) c') :=
  ⟨clean_output_fields hwf hok,
   fun r hr hd hv hs => clean_retention hwf hok hr hd hv hs⟩

/-- C4 witness: a table with one valid row (null quantity) and one
null-date row. -/
theorem c4_witness :
    cleanWitnessTable.cols.Nodup ∧
    (∀ r ∈ cleanWitnessTable.rows,
      r.length = cleanWitnessTable.cols.length) ∧
    cleanTable cleanWitnessTable = Except.ok cleanWitnessCleaned ∧
    (∀ r' ∈ cleanWitnessCleaned.rows,
      getCell cleanWitnessCleaned.cols r' "date" ≠ Value.vNull ∧
      getCell cleanWitnessCleaned.cols r' "revenue" ≠ Value.vNull ∧
      getCell cleanWitnessCleaned.cols r' "store_id" ≠ Value.vNull ∧
      getCell cleanWitnessCleaned.cols r' "year" ≠ Value.vNull ∧
      getCell cleanWitnessCleaned.cols r' "month" ≠ Value.vNull ∧
      getCell cleanWitnessCleaned.cols r' "year_month" ≠ Value.vNull) :=
  ⟨by decide, by decide, rfl,
   (c4_required_field_filtering cleanWitnessTable cleanWitnessCleaned
     (by decide) (by decide) rfl).1⟩

/-- C5: monthly aggregation.  For any cleaned table carrying the grouped
and aggregated columns (duplicate-free — pandas raises otherwise),
`aggregate` succeeds and produces one row per distinct
(store_id, year_month) key, with no duplicate keys; every row with a
non-null key contributes to some group; each summary row carries
total_revenue = round(sum(revenue), 2) under round-half-to-even,
total_quantity = the null-skipping sum of quantity, and total_orders =
the count of non-null dates of the group, which equals the group size
whenever dates are non-null.  On the specification's concrete cleaned
rows, S1 receives 150.00 (half-even at 150.005), quantity 3, orders 2,
and S2 receives 10.00, quantity 1, orders 1. -/
theorem c5_monthly_aggregation (now : String) (t : Table)
    (hnd : t.cols.Nodup) (hcols : ∀ c ∈ aggCols, c ∈ t.cols) :
    aggregate now (some t) = Except.ok (some
      { cols := summaryCols,
        rows := (groupKeys t).map (summaryRow now t) }) ∧
    (groupKeys t).Nodup ∧
    (∀ r ∈ t.rows, getCell t.cols r "store_id" ≠ Value.vNull →
      getCell t.cols r "year_month" ≠ Value.vNull →
      keyOf t.cols r ∈ groupKeys t) ∧
    (∀ k ∈ groupKeys t,
      getCell summaryCols (summaryRow now t k) "store_id" = k.1 ∧
      getCell summaryCols (summaryRow now t k) "year_month" = k.2 ∧
      getCell summaryCols (summaryRow now t k) "total_revenue" =
        Value.vNum (roundCenti (sumRevenue t.cols (groupRows t k))) 2 ∧
      getCell summaryCols (summaryRow now t k) "total_quantity" =
        Value.vNum (sumQty t.cols (groupRows t k)).1
          (sumQty t.cols (groupRows t k)).2 ∧
      getCell summaryCols (summaryRow now t k) "total_orders" =
        Value.vNum (countDates t.cols (groupRows t k) : Int) 0 ∧
      ((∀ r ∈ groupRows t k, getCell t.cols r "date" ≠ Value.vNull) →
        countDates t.cols (groupRows t k) = (groupRows t k).length)) ∧
    aggregate now (some c5Table) = Except.ok (some (c5Summary now)) := by
  refine ⟨aggregate_ok hcols, groupKeys_nodup t, ?_, ?_, rfl⟩
  · intro r hr h1 h2
    exact mem_groupKeys hr h1 h2
  · intro k _
    obtain ⟨f1, f2, f3, f4, f5, _⟩ := summaryRow_fields now t k
    exact ⟨f1, f2, f3, f4, f5,
      fun h => countDates_eq_length fun r hr => h r hr⟩

/-- C5 witness: the concrete cleaned table of the specification. -/
theorem c5_witness :
    c5Table.cols.Nodup ∧ (∀ c ∈ aggCols, c ∈ c5Table.cols) ∧
    aggregate "T" (some c5Table) = Except.ok (some (c5Summary "T")) :=
  ⟨by decide, by decide,
   (c5_monthly_aggregation "T" c5Table (by decide) (by decide)).2.2.2.2⟩

/-- C6 counterexample: two columns that normalize to the same label
("Store" and "store ", both matching the store_id synonym set) are BOTH
renamed to the canonical name — `df.rename` renames every occurrence of
the matched label — so the second does not remain unrenamed. -/
theorem c6_both_columns_renamed :
    normalizeCols ["Store", "store "] = ["store_id", "store_id"] ∧
    ("store_id" : String) ≠ normName "store " :=
  ⟨by decide, by decide⟩

/-- C6 (amended): first-match-wins holds for columns with distinct
normalized names: if positions i < j both match the synonym set of one
canonical entry and i is the first matching position, the output holds
the canonical name at i, while position j keeps its normalized name when
it differs from the matched label — and is renamed along with it when the
two normalized names coincide. -/
theorem c6_first_match_wins (cols : List String)
    (e : String × List String) (he : e ∈ columnMapping) (i j : Nat)
    (a b : String) (hij : i < j)
    (ha : (cols.map normName)[i]? = some a)
    (hb : (cols.map normName)[j]? = some b)
    (hae : a ∈ e.2) (hbe : b ∈ e.2)
    (hfirst : ∀ (k : Nat) (v : String), k < i →
      (cols.map normName)[k]? = some v → v ∉ e.2) :
    (normalizeCols cols)[i]? = some e.1 ∧
      (normalizeCols cols)[j]? = some (if b = a then e.1 else b) :=
  normalizeCols_first_match he hij ha hb hae hbe hfirst

/-- C6 witness: a table with columns store and location_id, both store_id
synonyms: the first becomes store_id, the second stays location_id. -/
theorem c6_witness :
    (("store_id", ["store_id", "store", "location_id"]) ∈ columnMapping) ∧
    ((["store", "location_id"].map normName)[0]? = some "store") ∧
    ((["store", "location_id"].map normName)[1]? = some "location_id") ∧
    ((normalizeCols ["store", "location_id"])[0]? = some "store_id" ∧
     (normalizeCols ["store", "location_id"])[1]? =
       some (if "location_id" = "store" then "store_id"
         else "location_id")) :=
  ⟨by decide, by decide, by decide,
   c6_first_match_wins ["store", "location_id"]
     ("store_id", ["store_id", "store", "location_id"]) (by decide) 0 1
     "store" "location_id" (by decide) (by decide) (by decide) (by decide)
     (by decide) (fun k v hk _ => absurd hk (Nat.not_lt_zero k))⟩

/-- C7: revenue coercion strips dollar signs and commas before parsing,
leaves already-numeric input unchanged ("$1,234.50" and the number 1234.50
both become the value 1234.50), and turns missing or unparseable input
into null. -/
theorem c7_currency_stripping :
    revenueCoerce (Value.vStr "$1,234.50") = Value.vNum 123450 2 ∧
    revenueCoerce (Value.vNum 12345 1) = Value.vNum 12345 1 ∧
    decToRat 123450 2 = decToRat 12345 1 ∧
    decToRat 12345 1 = (1234.50 : ℚ) ∧
    (∀ (m : Int) (e : Nat),
      revenueCoerce (Value.vNum m e) = Value.vNum m e) ∧
    revenueCoerce Value.vNull = Value.vNull ∧
    revenueCoerce (Value.vStr "abc") = Value.vNull :=
  ⟨by decide, by decide, by norm_num [decToRat], by norm_num [decToRat],
   revenueCoerce_num, by decide, by decide⟩

/-- C8 counterexample: quantity is parsed with `pd.to_numeric`, not as an
integer: the string "2.5" becomes the non-integral numeric 2.5 (not null,
not an integer). -/
theorem c8_quantity_not_integer :
    quantityCoerce (Value.vStr "2.5") = Value.vNum 25 1 ∧
    (¬ ∃ n : Int, decToRat 25 1 = (n : ℚ)) ∧
    Value.vNum 25 1 ≠ Value.vNull := by
  refine ⟨by decide, ?_, by decide⟩
  rintro ⟨n, hn⟩
  rw [decToRat] at hn
  rw [show ((10 : ℚ) ^ (1 : Nat)) = 10 by norm_num,
    div_eq_iff (by norm_num : (10 : ℚ) ≠ 0)] at hn
  have : (25 : Int) = n * 10 := by exact_mod_cast hn
  omega

/-- C8 (amended): quantity coercion yields a number (integral or not) or
null — unparseable and missing values become null — and the row is never
dropped on account of its quantity: any row with non-null coerced
required fields survives cleaning whatever its quantity holds. -/
theorem c8_quantity_numeric_or_null (t t' : Table)
    (hnd : t.cols.Nodup)
    (hwf : ∀ r ∈ t.rows, r.length = t.cols.length)
    (hok : cleanTable t = Except.ok t') :
    (∀ v, quantityCoerce v = Value.vNull ∨
      ∃ m e, quantityCoerce v = Value.vNum m e) ∧
    (∀ r ∈ t.rows,
      getCell t.cols (coerceRow t.cols r) "date" ≠ Value.vNull →
      getCell t.cols (coerceRow t.cols r) "revenue" ≠ Value.vNull →
      getCell t.cols (coerceRow t.cols r) "store_id" ≠ Value.vNull →
      ∃ r' ∈ t'.rows,
        getCell t'.cols r' "quantity" =
          getCell t.cols (coerceRow t.cols r) "quantity") :=
  ⟨quantityCoerce_shape,
   fun r hr hd hv hs => by
    obtain ⟨r', hr', hagree⟩ := clean_retention hwf hok hr hd hv hs
    exact ⟨r', hr', hagree "quantity" (by decide) (by decide) (by decide)⟩⟩

/-- C8 witness: the valid row of the witness table has a null quantity
and survives. -/
theorem c8_witness :
    cleanWitnessTable.cols.Nodup ∧
    (∀ r ∈ cleanWitnessTable.rows,
      r.length = cleanWitnessTable.cols.length) ∧
    cleanTable cleanWitnessTable = Except.ok cleanWitnessCleaned ∧
    (∀ v, quantityCoerce v = Value.vNull ∨
      ∃ m e, quantityCoerce v = Value.vNum m e) :=
  ⟨by decide, by decide, rfl,
   (c8_quantity_numeric_or_null cleanWitnessTable cleanWitnessCleaned
     (by decide) (by decide) rfl).1⟩

/-- C9 counterexample: an unmatched column is NOT left under its original
name: the whole column index is rewritten to lower-cased, stripped form
first, so "EXTRA COL" comes out as "extra col". -/
theorem c9_unmatched_not_original :
    normalizeCols ["EXTRA COL"] = ["extra col"] ∧
    ("extra col" : String) ≠ "EXTRA COL" :=
  ⟨by decide, by decide⟩

/-- C9 (amended): matching case-folds and trims labels before comparing
with the synonym table (a column named "  STORE " is recognized as
store_id), and a column matching no synonym passes through under its
case-folded, whitespace-trimmed name. -/
theorem c9_casefold_matching :
    normalizeCols ["  STORE "] = ["store_id"] ∧
    ∀ (cols : List String) (k : Nat) (v : String),
      (cols.map normName)[k]? = some v → v ∉ allSyns →
      (normalizeCols cols)[k]? = some v :=
  ⟨by decide, fun _ _ _ hk hv => normalizeCols_unmatched hk hv⟩

/-- C9 witness: an unmatched mixed-case column keeps its normalized
form. -/
theorem c9_witness :
    ((["Shop Notes"].map normName)[0]? = some "shop notes") ∧
    ("shop notes" ∉ allSyns) ∧
    (normalizeCols ["Shop Notes"])[0]? = some "shop notes" :=
  ⟨by decide, by decide,
   c9_casefold_matching.2 ["Shop Notes"] 0 "shop notes" (by decide)
     (by decide)⟩

/-- C10 counterexample: normalization can produce duplicate column
labels: a table whose columns are sales and revenue (a synonym followed
by the canonical name itself) comes out as revenue, revenue. -/
theorem c10_duplicate_canonical :
    normalizeCols ["sales", "revenue"] = ["revenue", "revenue"] ∧
    ¬ (normalizeCols ["sales", "revenue"]).Nodup :=
  ⟨by decide, by decide⟩

/-- C10 (amended): the normalized output has pairwise-distinct column
labels provided the normalized input labels are distinct and, for each
canonical entry whose canonical name already occurs among them, that
name is itself the first label matching the entry's synonym set. -/
theorem c10_distinct_columns (cols : List String)
    (hnd : (cols.map normName).Nodup)
    (hfirst : ∀ e ∈ columnMapping, e.1 ∈ cols.map normName →
      (cols.map normName).find? (fun c => e.2.contains c) = some e.1) :
    (normalizeCols cols).Nodup :=
  normalizeCols_nodup hnd hfirst

/-- C10 witness: a table of five distinct synonyms plus an extra column
normalizes to six distinct labels. -/
theorem c10_witness :
    ((["store", "sale_date", "amount", "item", "qty", "extra"].map
      normName).Nodup) ∧
    (∀ e ∈ columnMapping,
      e.1 ∈ ["store", "sale_date", "amount", "item", "qty", "extra"].map
        normName →
      (["store", "sale_date", "amount", "item", "qty", "extra"].map
        normName).find? (fun c => e.2.contains c) = some e.1) ∧
    (normalizeCols
      ["store", "sale_date", "amount", "item", "qty", "extra"]).Nodup :=
  ⟨by decide, by decide,
   c10_distinct_columns ["store", "sale_date", "amount", "item", "qty",
     "extra"] (by decide) (by decide)⟩

end SalesETL
